import Mathlib

/-!
Verification of the Cutting Optimization & Material Allocation Engine
of `main_end2.py` (textile_end2).

The Python source is shallowly embedded:
* panel dimensions and piece dimensions are rationals (the source reads
  them as decimal numbers and converts with `float`); quantities and
  remainders are integers (Python `int`);
* `pack_single_fabric` returns `Option _`: `none` models the
  `ZeroDivisionError` that `fabric_width // item_width` raises when a
  piece with positive quantity has a zero dimension;
* the MySQL store is a record of table rows (lists); each SQL statement
  of the source is embedded as a pure query/update on that record.
  `SELECT ... LIMIT 1` without `ORDER BY` is modelled as the first row
  in table order.
-/

/-- A piece demand entry, one element of the `items` dictionaries built by
`calculate_cutting` (`name`, `width`, `height`, `quantity`). -/
structure Item where
  name : String
  width : Rat
  height : Rat
  quantity : Int
deriving DecidableEq, Repr

/-- One entry of the `placements` list built by `pack_single_fabric`.
The source also stores `x` and `y`, both always `0`; they carry no
information and are omitted. -/
structure Placement where
  width : Rat
  height : Rat
  count : Int
  name : String
deriving DecidableEq, Repr

/-- One entry of the `used` list built by `pack_single_fabric`. -/
structure UsedEntry where
  name : String
  count : Int
deriving DecidableEq, Repr

/-- The comparison behind `sorted(temp_items, key=lambda x: (-x['width'], -x['height']))`:
`a` may come before `b` iff the key of `a` is lexicographically at most the
key of `b`, i.e. width descending, then height descending. -/
def itemBefore (a b : Item) : Bool :=
  decide (b.width < a.width) || (decide (a.width = b.width) && decide (b.height ≤ a.height))

/-- Stable insertion used to embed the stable Python builtin `sorted`. -/
def insertItem (a : Item) : List Item → List Item
  | [] => [a]
  | b :: rest => if itemBefore a b then a :: b :: rest else b :: insertItem a rest

/-- Stable sort by `(-width, -height)`, embedding `sorted(...)` in
`pack_single_fabric`. Insertion sort is stable, and a stable sort for a
total preorder is unique, so it agrees with the Python timsort. -/
def sortItems : List Item → List Item
  | [] => []
  | a :: rest => insertItem a (sortItems rest)

/-- `item_width` of the loop body: the piece width, or the piece height
when the 90°-rotated orientation is evaluated. -/
def effWidth (rot : Bool) (it : Item) : Rat :=
  if rot then it.height else it.width

/-- `item_height` of the loop body. -/
def effHeight (rot : Bool) (it : Item) : Rat :=
  if rot then it.width else it.height

/-- `max_count = int(fabric_width // item_width) * int(fabric_height // item_height)`:
the per-type capacity of the full panel. -/
def capacityOf (fw fh : Rat) (rot : Bool) (it : Item) : Int :=
  Int.floor (fw / effWidth rot it) * Int.floor (fh / effHeight rot it)

/-- One orientation pass of `pack_single_fabric` over the already sorted
item list. Each item is evaluated against the full panel; `none` models
the `ZeroDivisionError` raised when an item has a zero effective
dimension. (The source also maintains a `free_space` list, which is
written but never read; it does not influence the returned value.) -/
def packPass (fw fh : Rat) (rot : Bool) : List Item → Option (List Placement × List UsedEntry)
  | [] => some ([], [])
  | it :: rest =>
    if effWidth rot it = 0 ∨ effHeight rot it = 0 then none
    else
      match packPass fw fh rot rest with
      | none => none
      | some (ps, us) =>
        let possible := min (capacityOf fw fh rot it) it.quantity
        if 0 < possible then
          some ({ width := effWidth rot it, height := effHeight rot it,
                  count := possible, name := it.name } :: ps,
                { name := it.name, count := possible } :: us)
        else
          some (ps, us)

/-- `total_area = sum(p['width'] * p['height'] * p['count'] for p in placements)`. -/
def totalArea (ps : List Placement) : Rat :=
  (ps.map fun p => p.width * p.height * (p.count : Rat)).sum

/-- `pack_single_fabric(fabric_width, fabric_height, items)`.
Both orientations are evaluated on the items with positive quantity,
sorted by `(-width, -height)`; `best_result` starts with area `0` and is
replaced only on a strictly larger total area. -/
def pack_single_fabric (fw fh : Rat) (items : List Item) :
    Option (List Placement × List UsedEntry) :=
  match packPass fw fh false (sortItems (items.filter fun it => 0 < it.quantity)),
        packPass fw fh true (sortItems (items.filter fun it => 0 < it.quantity)) with
  | some (p0, u0), some (p1, u1) =>
    if (if 0 < totalArea p0 then totalArea p0 else 0) < totalArea p1 then some (p1, u1)
    else if 0 < totalArea p0 then some (p0, u0) else some ([], [])
  | _, _ => none

/-- The inner merge loop of `calculate_cutting`: subtract `rem` placed
units of piece `name` from the tracker `items_copy`, draining items with
positive quantity in list order (`break` after the item that absorbs the
rest). -/
def drainItems (name : String) (rem : Int) : List Item → List Item
  | [] => []
  | it :: rest =>
    if it.name = name ∧ 0 < it.quantity then
      if rem ≤ it.quantity then
        { it with quantity := it.quantity - rem } :: rest
      else
        { it with quantity := 0 } :: drainItems name (rem - it.quantity) rest
    else
      it :: drainItems name rem rest

/-- `for u in used: ...` — merge all placed counts back into the tracker. -/
def mergeUsed (items : List Item) : List UsedEntry → List Item
  | [] => items
  | u :: us => mergeUsed (drainItems u.name u.count items) us

/-- Total outstanding demand (negative quantities count as zero); the
termination measure of the driver loop. -/
def totalPos (items : List Item) : Nat :=
  (items.map fun it => it.quantity.toNat).sum

/-- Total placed count that `used` reports for one piece name. -/
def usedFor (us : List UsedEntry) (name : String) : Int :=
  ((us.filter fun u => u.name == name).map (·.count)).sum

/-- Relation between the tracker before and after a drain: quantities only
decrease and never drop below zero. -/
def drainRel (a b : Item) : Prop :=
  b.quantity ≤ a.quantity ∧ (0 ≤ a.quantity → 0 ≤ b.quantity)


/-- The per-material driver loop of `calculate_cutting` (lines 319-339):
while some tracked quantity is positive, call the packer on the items with
positive quantity; merge the used counts back and count one more panel,
or stop when nothing was placed. The loop is written with explicit fuel to
keep it structurally recursive; `cuttingLoop` below supplies
`totalPos items + 1` fuel, which is always sufficient because each
iteration strictly decreases `totalPos` (theorem `mergeUsed_totalPos_lt`),
so the fuel-exhaustion branch is unreachable and the only `none` results
model a propagated `ZeroDivisionError` from the packer. -/
def cuttingLoopAux (fw fh : Rat) : Nat → List Item → Option (Nat × List Item)
  | 0, _ => none
  | fuel + 1, items =>
    if items.any fun it => decide (0 < it.quantity) then
      match pack_single_fabric fw fh (items.filter fun it => 0 < it.quantity) with
      | none => none
      | some (ps, us) =>
        if ps = [] then some (0, items)
        else
          match cuttingLoopAux fw fh fuel (mergeUsed items us) with
          | none => none
          | some (n, rest) => some (n + 1, rest)
    else
      some (0, items)

/-- The driver loop with sufficient fuel: returns the consumed-panel count
(`fabric_required`) and the final tracker. -/
def cuttingLoop (fw fh : Rat) (items : List Item) : Option (Nat × List Item) :=
  cuttingLoopAux fw fh (totalPos items + 1) items

/-- Piece A of the scenario in §8 of the specification. -/
def pieceA : Item :=
  { name := "A", width := 100, height := 50, quantity := 10 }

/-- Piece B of the scenario in §8 of the specification. -/
def pieceB : Item :=
  { name := "B", width := 80, height := 40, quantity := 5 }

/-!
The Persistence Store.

The tables touched by the engine, with exactly the columns the source
reads or writes. Auto-increment ids are modelled by `next...Id` counters.
`SELECT ... LIMIT 1` without `ORDER BY` has no specified row order in SQL;
it is embedded as the first matching row in table order.
-/

/-- A `material` row. -/
structure MaterialRow where
  id : Nat
  name : String
  typeId : Nat
deriving DecidableEq, Repr

/-- A `material_type` row (type 2 / "Фурнитура" is hardware). -/
structure MatTypeRow where
  id : Nat
  name : String
deriving DecidableEq, Repr

/-- A `product` row. -/
structure ProductRow where
  id : Nat
  name : String
deriving DecidableEq, Repr

/-- An `order_request` row (columns other than `id` and `status` are not
read by the engine). -/
structure OrderRow where
  id : Nat
  status : String
deriving DecidableEq, Repr

/-- An `order_composition` row. -/
structure OcRow where
  id : Nat
  orderId : Nat
  productId : Nat
  quantity : Int
  width : Rat
  height : Rat
deriving DecidableEq, Repr

/-- A `product_materials` row (an Assignment). -/
structure PmRow where
  id : Nat
  ocId : Nat
  scId : Nat
  quantity : Int
  cost : Option Int
deriving DecidableEq, Repr

/-- A `supply` row (an intake record). -/
structure SupplyRow where
  id : Nat
  employeeId : Nat
  supplierId : Option Nat
  totalAmount : Int
  date : String
deriving DecidableEq, Repr

/-- A `supply_composition` row (a stock batch). The `cost`,
`unit_quantity` and `location_id` columns are written once with constants
and never read back; they are omitted. -/
structure BatchRow where
  id : Nat
  supplyId : Nat
  materialId : Nat
  quantity : Int
  width : Option Rat
  height : Option Rat
  status : String
  remainder : Int
deriving DecidableEq, Repr

/-- The whole store. -/
structure DB where
  materials : List MaterialRow
  matTypes : List MatTypeRow
  products : List ProductRow
  orders : List OrderRow
  orderComps : List OcRow
  pms : List PmRow
  supplies : List SupplyRow
  batches : List BatchRow
  nextSupplyId : Nat
  nextBatchId : Nat
  nextPmId : Nat
deriving DecidableEq, Repr

/-- The `JOIN material m ON ... WHERE m.name = %s` condition for a batch. -/
def matchesName (mats : List MaterialRow) (mid : Nat) (name : String) : Bool :=
  mats.any fun m => m.id == mid && m.name == name

/-- `SELECT SUM(remainder) FROM supply_composition sc JOIN material m ON
sc.material_id = m.id WHERE m.name = %s` (an empty result is read as 0). -/
def totalRemainder (db : DB) (name : String) : Int :=
  ((db.batches.filter fun b => matchesName db.materials b.materialId name).map
    (·.remainder)).sum

/-- Stable insertion used to embed `ORDER BY sc.id`. -/
def insertBatch (a : BatchRow) : List BatchRow → List BatchRow
  | [] => [a]
  | b :: rest => if a.id ≤ b.id then a :: b :: rest else b :: insertBatch a rest

/-- Stable sort by batch id, embedding `ORDER BY sc.id`. -/
def sortBatches : List BatchRow → List BatchRow
  | [] => []
  | a :: rest => insertBatch a (sortBatches rest)

/-- `SELECT sc.id, sc.remainder FROM supply_composition sc JOIN material m
... WHERE m.name = %s AND sc.remainder > 0 ORDER BY sc.id`: the snapshot
of batch rows the resolver drains. -/
def remainderRows (db : DB) (name : String) : List (Nat × Int) :=
  (sortBatches (db.batches.filter fun b =>
    matchesName db.materials b.materialId name && decide (0 < b.remainder))).map
    fun b => (b.id, b.remainder)

/-- The join condition of the `SELECT pm.id, oc.id ... LIMIT 1` lookup:
the Assignment belongs to the order and its batch is of the material with
the given name. -/
def pmLinks (ocs : List OcRow) (batches : List BatchRow) (mats : List MaterialRow)
    (oid : Nat) (name : String) (pm : PmRow) : Bool :=
  (ocs.any fun oc => oc.id == pm.ocId && oc.orderId == oid) &&
  (batches.any fun sc => sc.id == pm.scId && matchesName mats sc.materialId name)

/-- `SELECT pm.id, oc.id as oc_id FROM order_composition oc JOIN
product_materials pm ... JOIN material m ... WHERE oc.order_id = %s AND
m.name = %s LIMIT 1`. Note: this looks the Assignment up by *material*,
not by batch. -/
def pmForMaterial (db : DB) (oid : Nat) (name : String) : Option PmRow :=
  db.pms.find? (pmLinks db.orderComps db.batches db.materials oid name)

/-- `SELECT id FROM order_composition WHERE order_id = %s LIMIT 1`. -/
def firstOc (db : DB) (oid : Nat) : Option Nat :=
  (db.orderComps.find? fun oc => oc.orderId == oid).map (·.id)

/-- `UPDATE product_materials SET quantity = quantity + %s WHERE id = %s`. -/
def updatePmQuantity (db : DB) (pmId : Nat) (delta : Int) : DB :=
  { db with pms := db.pms.map fun pm =>
      if pm.id == pmId then { pm with quantity := pm.quantity + delta } else pm }

/-- `INSERT INTO product_materials (order_composition_id,
supply_composition_id, quantity, cost) VALUES (...)`. -/
def insertPm (db : DB) (ocId scId : Nat) (qty : Int) (cost : Option Int) : DB :=
  { db with
    pms := db.pms ++ [{ id := db.nextPmId, ocId := ocId, scId := scId,
                        quantity := qty, cost := cost }],
    nextPmId := db.nextPmId + 1 }

/-- `UPDATE supply_composition SET remainder = remainder - %s WHERE id = %s`. -/
def updateBatchRemainder (db : DB) (bid : Nat) (delta : Int) : DB :=
  { db with batches := db.batches.map fun b =>
      if b.id == bid then { b with remainder := b.remainder - delta } else b }

/-- `UPDATE order_request SET status = %s WHERE id = %s`. -/
def updateOrderStatus (db : DB) (oid : Nat) (st : String) : DB :=
  { db with orders := db.orders.map fun o =>
      if o.id == oid then { o with status := st } else o }

/-- The status of an order as stored. -/
def statusOf (db : DB) (oid : Nat) : Option String :=
  (db.orders.find? fun o => o.id == oid).map (·.status)

/-- One iteration of the `for row in rows` loop of
`check_and_prompt_supply_request` (lines 487-515): transfer
`min(row.remainder, needed)` units, crediting an existing Assignment of
the order for this material if one exists, otherwise inserting a new
zero-cost Assignment bound to this batch (if the order has a composition
row), then decrement the batch remainder. `rowRem` is the remainder
snapshot fetched before the loop. -/
def drainStep (oid : Nat) (name : String) (db : DB) (rowId : Nat) (rowRem : Int)
    (needed : Int) : DB × Int :=
  let t := min rowRem needed
  let db1 :=
    match pmForMaterial db oid name with
    | some pm => updatePmQuantity db pm.id t
    | none =>
      match firstOc db oid with
      | some ocId => insertPm db ocId rowId t none
      | none => db
  (updateBatchRemainder db1 rowId t, needed - t)

/-- The `for row in rows` loop (`break` once the need is met). -/
def drainRows (oid : Nat) (name : String) : DB → List (Nat × Int) → Int → DB × Int
  | db, [], needed => (db, needed)
  | db, (rid, rrem) :: rest, needed =>
    if needed ≤ 0 then (db, needed)
    else
      let s := drainStep oid name db rid rrem needed
      drainRows oid name s.1 rest s.2

/-- Resolve one shortage entry from batch remainders (lines 482-515). -/
def resolveMaterial (oid : Nat) (db : DB) (name : String) (shortage : Int) : DB :=
  (drainRows oid name db (remainderRows db name) shortage).1

/-- The `for material, shortage in self.shortage_data.items()` loop of the
`all_available` branch. -/
def resolveAll (db : DB) (oid : Nat) (shortage : List (String × Int)) : DB :=
  shortage.foldl (fun d e => resolveMaterial oid d e.1 e.2) db

/-- `SELECT id FROM material WHERE name = %s` (first row). -/
def materialIdByName (db : DB) (name : String) : Option Nat :=
  (db.materials.find? fun m => m.name == name).map (·.id)

/-- One iteration of `create_supply_requests` (lines 544-566): skip the
material if its name is not in `material`; otherwise insert an intake
(`employee_id = 1`, no supplier, zero amount, current date), a pending
batch (`quantity = shortage`, status "Ждёт подтверждения",
`remainder = 0`), and — only if the order has a composition row — a
zero-quantity placeholder Assignment bound to the new batch. -/
def createSupplyOne (oid : Nat) (today : String) (db : DB) (entry : String × Int) : DB :=
  match materialIdByName db entry.1 with
  | none => db
  | some mid =>
    let supplyId := db.nextSupplyId
    let db1 : DB := { db with
      supplies := db.supplies ++
        [{ id := supplyId, employeeId := 1, supplierId := none,
           totalAmount := 0, date := today }],
      nextSupplyId := supplyId + 1 }
    let scId := db1.nextBatchId
    let db2 : DB := { db1 with
      batches := db1.batches ++
        [{ id := scId, supplyId := supplyId, materialId := mid,
           quantity := entry.2, width := none, height := none,
           status := "Ждёт подтверждения", remainder := 0 }],
      nextBatchId := scId + 1 }
    match firstOc db2 oid with
    | none => db2
    | some ocId => insertPm db2 ocId scId 0 none

/-- `create_supply_requests` (lines 536-567): one pass over the shortage
map, then the status update to "Заказ материалов". `today` stands for the
value of `CURDATE()` in the database. -/
def create_supply_requests (db : DB) (oid : Nat) (shortage : List (String × Int))
    (today : String) : DB :=
  updateOrderStatus (shortage.foldl (createSupplyOne oid today) db) oid
    "Заказ материалов"

/-- `check_and_prompt_supply_request` (lines 445-534) acting on the store.
`shortage` is the merged `shortage_data` map (insertion-ordered
association list), `confirm` the boolean outcome of the confirmation
dialog on the unresolvable path. -/
def check_and_prompt_supply_request (db : DB) (oid : Nat)
    (shortage : List (String × Int)) (confirm : Bool) (today : String) : DB :=
  if shortage.isEmpty then
    updateOrderStatus db oid "Готово в цеху"
  else if shortage.all fun e => decide (e.2 ≤ totalRemainder db e.1) then
    updateOrderStatus (resolveAll db oid shortage) oid "Раскрой"
  else if confirm then
    create_supply_requests db oid shortage today
  else
    db

/-- Total Assignment quantity bound to the order for batches of the named
material (the quantity the resolver credits). -/
def assignedTotal (db : DB) (oid : Nat) (name : String) : Int :=
  ((db.pms.filter (pmLinks db.orderComps db.batches db.materials oid name)).map
    (·.quantity)).sum

/-!
Material Demand Aggregator (`show_order_info` and `calculate_cutting`).

The joins below embed the SQL of the two functions row by row. Join
results are produced in nested-loop order over the stored tables; `GROUP
BY`/dictionary grouping is embedded as insertion-ordered association
lists, exactly as Python dictionaries preserve insertion order.
-/

/-- One row of the `fabric_query` of `calculate_cutting` (lines 263-271). -/
structure FabricRowQ where
  scId : Nat
  width : Option Rat
  height : Option Rat
  matName : String
  matId : Nat
deriving DecidableEq, Repr

/-- The `fabric_query` join: product_materials x supply_composition x
material x order_composition, restricted to the order and to non-hardware
materials (`material_type_id != 2`). -/
def fabricRows (db : DB) (oid : Nat) : List FabricRowQ :=
  db.pms.flatMap fun pm =>
    (db.batches.filter fun sc => sc.id == pm.scId).flatMap fun sc =>
      (db.materials.filter fun m => m.id == sc.materialId && m.typeId != 2).flatMap fun m =>
        (db.orderComps.filter fun oc => oc.id == pm.ocId && oc.orderId == oid).map fun _ =>
          { scId := sc.id, width := sc.width, height := sc.height,
            matName := m.name, matId := m.id }

/-- The per-material fabric record built by the `fabrics_by_material`
grouping loop (first row per material name wins). -/
structure FabricInfo where
  matId : Nat
  scId : Nat
  width : Rat
  height : Rat
deriving DecidableEq, Repr

/-- The `fabrics_by_material` grouping loop (lines 272-282): keep the
first row of each material name; `float(width)` applied to a NULL column
raises, which `none` models. -/
def groupFabrics : List FabricRowQ → List (String × FabricInfo) →
    Option (List (String × FabricInfo))
  | [], acc => some acc
  | r :: rest, acc =>
    if (acc.find? fun e => e.1 == r.matName).isSome then groupFabrics rest acc
    else
      match r.width, r.height with
      | some w, some h =>
        groupFabrics rest (acc ++ [(r.matName,
          { matId := r.matId, scId := r.scId, width := w, height := h })])
      | _, _ => none

/-- One row of the `order_query` of `calculate_cutting` (lines 285-294). -/
structure ItemRowQ where
  ocId : Nat
  prodName : String
  quantity : Int
  width : Rat
  height : Rat
  matName : String
deriving DecidableEq, Repr

/-- The `order_query` join: order_composition x product x
product_materials x supply_composition x material for the order,
non-hardware materials only. -/
def itemRows (db : DB) (oid : Nat) : List ItemRowQ :=
  (db.orderComps.filter fun oc => oc.orderId == oid).flatMap fun oc =>
    (db.products.filter fun p => p.id == oc.productId).flatMap fun p =>
      (db.pms.filter fun pm => pm.ocId == oc.id).flatMap fun pm =>
        (db.batches.filter fun sc => sc.id == pm.scId).flatMap fun sc =>
          (db.materials.filter fun m => m.id == sc.materialId && m.typeId != 2).map fun m =>
            { ocId := oc.id, prodName := p.name, quantity := oc.quantity,
              width := oc.width, height := oc.height, matName := m.name }

/-- One step of the `items_by_material` grouping loop (lines 295-305). -/
def addItemRow (acc : List (String × List Item)) (r : ItemRowQ) :
    List (String × List Item) :=
  if (acc.find? fun e => e.1 == r.matName).isSome then
    acc.map fun e =>
      if e.1 == r.matName then
        (e.1, e.2 ++ [{ name := r.prodName, width := r.width,
                        height := r.height, quantity := r.quantity }])
      else e
  else
    acc ++ [(r.matName, [{ name := r.prodName, width := r.width,
                           height := r.height, quantity := r.quantity }])]

/-- The `items_by_material` dictionary. -/
def groupItems (rows : List ItemRowQ) : List (String × List Item) :=
  rows.foldl addItemRow []

/-- The per-material packing loop of `calculate_cutting` (lines 308-341):
materials without a fabric record are skipped (`continue`); otherwise the
driver loop computes the required panel count. Yields
`(name, materialId, required)` per processed material; `none` models a
propagated packer exception. -/
def totalFabricRequired (fabs : List (String × FabricInfo)) :
    List (String × List Item) → Option (List (String × Nat × Nat))
  | [] => some []
  | (mat, items) :: rest =>
    match fabs.find? fun e => e.1 == mat with
    | none => totalFabricRequired fabs rest
    | some e =>
      match cuttingLoop e.2.width e.2.height items with
      | none => none
      | some (n, _) =>
        match totalFabricRequired fabs rest with
        | none => none
        | some l => some ((mat, e.2.matId, n) :: l)

/-- The `fabric_shortage` computation (lines 343-360): required panels
compared with the total Assignment quantity of the order for the material
(the `assigned_query` sum); only strictly positive gaps are kept. -/
def fabricShortage (db : DB) (oid : Nat) (tfr : List (String × Nat × Nat)) :
    List (String × Int) :=
  tfr.filterMap fun e =>
    if assignedTotal db oid e.1 < (e.2.2 : Int) then
      some (e.1, (e.2.2 : Int) - assignedTotal db oid e.1)
    else none

/-- Rows of the `required_query` of `show_order_info` (lines 216-226):
hardware quantity demanded by the order, before grouping. -/
def hardwareReqRows (db : DB) (oid : Nat) : List (String × Int) :=
  (db.pms.filter fun pm =>
      db.orderComps.any fun oc => oc.id == pm.ocId && oc.orderId == oid).flatMap fun pm =>
    (db.batches.filter fun sc => sc.id == pm.scId).flatMap fun sc =>
      (db.materials.filter fun m => m.id == sc.materialId).flatMap fun m =>
        (db.matTypes.filter fun mt => mt.id == m.typeId && mt.name == "Фурнитура").map
          fun _ => (m.name, pm.quantity)

/-- `GROUP BY m.name` with `SUM`, as an insertion-ordered fold. -/
def groupSum (rows : List (String × Int)) : List (String × Int) :=
  rows.foldl (fun acc r =>
    if (acc.find? fun e => e.1 == r.1).isSome then
      acc.map fun e => if e.1 == r.1 then (e.1, e.2 + r.2) else e
    else acc ++ [r]) []

/-- Hardware required per material name for the order. -/
def hardwareRequired (db : DB) (oid : Nat) : List (String × Int) :=
  groupSum (hardwareReqRows db oid)

/-- Rows of the `available_query` of `show_order_info` (lines 227-235). -/
def hardwareAvailRows (db : DB) : List (String × Int) :=
  db.batches.flatMap fun sc =>
    (db.materials.filter fun m => m.id == sc.materialId).flatMap fun m =>
      (db.matTypes.filter fun mt => mt.id == m.typeId && mt.name == "Фурнитура").map
        fun _ => (m.name, sc.quantity)

/-- Hardware available per material name over the whole store. -/
def hardwareAvailable (db : DB) : List (String × Int) :=
  groupSum (hardwareAvailRows db)

/-- The `hardware_shortage` computation of `show_order_info`
(lines 236-250): required vs available, keeping strictly positive gaps. -/
def hardwareShortage (db : DB) (oid : Nat) : List (String × Int) :=
  (hardwareRequired db oid).filterMap fun e =>
    if (((hardwareAvailable db).find? fun a => a.1 == e.1).map (·.2)).getD 0 < e.2 then
      some (e.1, e.2 - (((hardwareAvailable db).find? fun a => a.1 == e.1).map (·.2)).getD 0)
    else none

/-- The Material Demand Aggregator pipeline: the fabric shortage map from
`calculate_cutting` and the hardware shortage map from `show_order_info`
for the same current order. `none` models a Python exception inside the
computation (which the source catches and surfaces as an error dialog). -/
def calculateAggregate (db : DB) (oid : Nat) :
    Option (List (String × Int) × List (String × Int)) :=
  match groupFabrics (fabricRows db oid) [] with
  | none => none
  | some fabs =>
    match totalFabricRequired fabs (groupItems (itemRows db oid)) with
    | none => none
    | some tfr => some (fabricShortage db oid tfr, hardwareShortage db oid)

/-- `order_request` existence check (the claimed `LookupError` trigger). -/
def orderExists (db : DB) (oid : Nat) : Bool :=
  db.orders.any fun o => o.id == oid

/-- A one-order store used to instantiate the state-machine theorems. -/
def storeC1 : DB :=
  { materials := [], matTypes := [], products := [],
    orders := [{ id := 1, status := "Подтвержден" }],
    orderComps := [], pms := [], supplies := [], batches := [],
    nextSupplyId := 1, nextBatchId := 1, nextPmId := 1 }

/-- A store with two batches of one material where an Assignment binds the
order to batch 1 only, while only batch 2 has remainder. -/
def storeC2 : DB :=
  { materials := [{ id := 1, name := "M", typeId := 1 }],
    matTypes := [], products := [],
    orders := [{ id := 7, status := "Подтвержден" }],
    orderComps := [{ id := 10, orderId := 7, productId := 1, quantity := 1,
                     width := 1, height := 1 }],
    pms := [{ id := 100, ocId := 10, scId := 1, quantity := 3, cost := none }],
    supplies := [],
    batches := [{ id := 1, supplyId := 1, materialId := 1, quantity := 10,
                  width := none, height := none, status := "Принят", remainder := 0 },
                { id := 2, supplyId := 1, materialId := 1, quantity := 10,
                  width := none, height := none, status := "Принят", remainder := 5 }],
    nextSupplyId := 2, nextBatchId := 3, nextPmId := 101 }

/-- A store with a material but no order-composition rows for order 9. -/
def storeC7 : DB :=
  { materials := [{ id := 1, name := "M", typeId := 1 }],
    matTypes := [], products := [],
    orders := [{ id := 9, status := "Подтвержден" }],
    orderComps := [], pms := [], supplies := [], batches := [],
    nextSupplyId := 1, nextBatchId := 1, nextPmId := 1 }

/-- A store in which order id 42 does not exist. -/
def storeC6 : DB :=
  { materials := [{ id := 1, name := "M", typeId := 1 }],
    matTypes := [{ id := 2, name := "Фурнитура" }], products := [],
    orders := [{ id := 1, status := "Подтвержден" }],
    orderComps := [], pms := [], supplies := [], batches := [],
    nextSupplyId := 1, nextBatchId := 1, nextPmId := 1 }

theorem insertItem_perm (a : Item) (l : List Item) : (insertItem a l).Perm (a :: l) := by
  induction l with
  | nil => simp [insertItem]
  | cons b rest ih =>
    by_cases h : itemBefore a b = true
    · simp [insertItem, h]
    · simp only [insertItem, h, if_false]
      exact (ih.cons b).trans (List.Perm.swap a b rest)

theorem sortItems_perm (l : List Item) : (sortItems l).Perm l := by
  induction l with
  | nil => simp [sortItems]
  | cons a rest ih =>
    exact (insertItem_perm a (sortItems rest)).trans (ih.cons a)

theorem packPass_used {fw fh : Rat} {rot : Bool} :
    ∀ {l : List Item} {ps : List Placement} {us : List UsedEntry},
      packPass fw fh rot l = some (ps, us) →
      ∀ u ∈ us, 0 < u.count ∧ ∃ it ∈ l, it.name = u.name ∧ u.count ≤ it.quantity := by
  intro l
  induction l with
  | nil =>
    intro ps us h u hu
    simp only [packPass, Option.some.injEq, Prod.mk.injEq] at h
    rw [← h.2] at hu
    simp at hu
  | cons it rest ih =>
    intro ps us h u hu
    simp only [packPass] at h
    split at h
    · exact absurd h (by simp)
    · cases hrec : packPass fw fh rot rest with
      | none => rw [hrec] at h; exact absurd h (by simp)
      | some pr =>
        obtain ⟨ps', us'⟩ := pr
        rw [hrec] at h
        simp only at h
        split at h
        · rename_i hpos
          simp only [Option.some.injEq, Prod.mk.injEq] at h
          rw [← h.2] at hu
          rcases List.mem_cons.mp hu with hu | hu
          · subst hu
            exact ⟨hpos, it, List.mem_cons_self .., rfl, min_le_right _ _⟩
          · obtain ⟨hc, it', hit', hn, hle⟩ := ih hrec u hu
            exact ⟨hc, it', List.mem_cons_of_mem _ hit', hn, hle⟩
        · simp only [Option.some.injEq, Prod.mk.injEq] at h
          rw [← h.2] at hu
          obtain ⟨hc, it', hit', hn, hle⟩ := ih hrec u hu
          exact ⟨hc, it', List.mem_cons_of_mem _ hit', hn, hle⟩

theorem packPass_length {fw fh : Rat} {rot : Bool} :
    ∀ {l : List Item} {ps : List Placement} {us : List UsedEntry},
      packPass fw fh rot l = some (ps, us) → ps.length = us.length := by
  intro l
  induction l with
  | nil =>
    intro ps us h
    simp only [packPass, Option.some.injEq, Prod.mk.injEq] at h
    simp [← h.1, ← h.2]
  | cons it rest ih =>
    intro ps us h
    simp only [packPass] at h
    split at h
    · exact absurd h (by simp)
    · cases hrec : packPass fw fh rot rest with
      | none => rw [hrec] at h; exact absurd h (by simp)
      | some pr =>
        obtain ⟨ps', us'⟩ := pr
        rw [hrec] at h
        simp only at h
        split at h
        · simp only [Option.some.injEq, Prod.mk.injEq] at h
          rw [← h.1, ← h.2]
          simp [ih hrec]
        · simp only [Option.some.injEq, Prod.mk.injEq] at h
          rw [← h.1, ← h.2]
          exact ih hrec

/-- The value `pack_single_fabric` returns is the result of one of the two
orientation passes, or the untouched initial `best_result` (empty). -/
theorem pack_cases {fw fh : Rat} {items : List Item} {ps : List Placement}
    {us : List UsedEntry}
    (h : pack_single_fabric fw fh items = some (ps, us)) :
    packPass fw fh false (sortItems (items.filter fun it => 0 < it.quantity)) = some (ps, us)
    ∨ packPass fw fh true (sortItems (items.filter fun it => 0 < it.quantity)) = some (ps, us)
    ∨ (ps = [] ∧ us = []) := by
  unfold pack_single_fabric at h
  cases h0 : packPass fw fh false (sortItems (items.filter fun it => 0 < it.quantity)) with
  | none => rw [h0] at h; exact absurd h (by simp)
  | some pr0 =>
    cases h1 : packPass fw fh true (sortItems (items.filter fun it => 0 < it.quantity)) with
    | none => rw [h0, h1] at h; exact absurd h (by simp)
    | some pr1 =>
      obtain ⟨p0, u0⟩ := pr0
      obtain ⟨p1, u1⟩ := pr1
      rw [h0, h1] at h
      simp only at h
      by_cases hA : (if 0 < totalArea p0 then totalArea p0 else 0) < totalArea p1
      · rw [if_pos hA] at h
        simp only [Option.some.injEq, Prod.mk.injEq] at h
        exact Or.inr (Or.inl (by rw [h.1, h.2]))
      · rw [if_neg hA] at h
        by_cases hB : 0 < totalArea p0
        · rw [if_pos hB] at h
          simp only [Option.some.injEq, Prod.mk.injEq] at h
          exact Or.inl (by rw [h.1, h.2])
        · rw [if_neg hB] at h
          simp only [Option.some.injEq, Prod.mk.injEq] at h
          exact Or.inr (Or.inr ⟨h.1.symm, h.2.symm⟩)

theorem pack_used_facts {fw fh : Rat} {items : List Item} {ps : List Placement}
    {us : List UsedEntry}
    (h : pack_single_fabric fw fh items = some (ps, us)) :
    ∀ u ∈ us, 0 < u.count ∧
      ∃ it ∈ items, 0 < it.quantity ∧ it.name = u.name ∧ u.count ≤ it.quantity := by
  intro u hu
  have key : ∀ {rot : Bool},
      packPass fw fh rot (sortItems (items.filter fun it => 0 < it.quantity)) = some (ps, us) →
      0 < u.count ∧ ∃ it ∈ items, 0 < it.quantity ∧ it.name = u.name ∧ u.count ≤ it.quantity := by
    intro rot hp
    obtain ⟨hc, it, hit, hn, hle⟩ := packPass_used hp u hu
    have hit' : it ∈ items.filter fun it => 0 < it.quantity :=
      (sortItems_perm _).mem_iff.mp hit
    have hm := List.mem_filter.mp hit'
    exact ⟨hc, it, hm.1, by simpa using hm.2, hn, hle⟩
  rcases pack_cases h with hp | hp | hp
  · exact key hp
  · exact key hp
  · rw [hp.2] at hu; simp at hu

theorem pack_us_ne_nil {fw fh : Rat} {items : List Item} {ps : List Placement}
    {us : List UsedEntry}
    (h : pack_single_fabric fw fh items = some (ps, us)) (hne : ps ≠ []) :
    us ≠ [] := by
  rcases pack_cases h with hp | hp | hp
  · intro hus
    have := packPass_length hp
    rw [hus] at this
    exact hne (List.length_eq_zero.mp this)
  · intro hus
    have := packPass_length hp
    rw [hus] at this
    exact hne (List.length_eq_zero.mp this)
  · exact absurd hp.1 hne

theorem drainRel_refl (a : Item) : drainRel a a := ⟨le_refl _, fun h => h⟩

theorem drainRel_trans {a b c : Item} (h1 : drainRel a b) (h2 : drainRel b c) :
    drainRel a c := ⟨h2.1.trans h1.1, fun h => h2.2 (h1.2 h)⟩

theorem forall2_drainRel_refl (l : List Item) : List.Forall₂ drainRel l l := by
  induction l with
  | nil => exact List.Forall₂.nil
  | cons a rest ih => exact List.Forall₂.cons (drainRel_refl a) ih

theorem forall2_drainRel_trans :
    ∀ {l1 l2 l3 : List Item}, List.Forall₂ drainRel l1 l2 →
      List.Forall₂ drainRel l2 l3 → List.Forall₂ drainRel l1 l3 := by
  intro l1
  induction l1 with
  | nil =>
    intro l2 l3 h1 h2
    cases h1; cases h2; exact List.Forall₂.nil
  | cons a rest ih =>
    intro l2 l3 h1 h2
    cases h1 with
    | cons hab h1' =>
      cases h2 with
      | cons hbc h2' => exact List.Forall₂.cons (drainRel_trans hab hbc) (ih h1' h2')

theorem drainItems_rel (name : String) :
    ∀ (rem : Int) (l : List Item), 0 ≤ rem →
      List.Forall₂ drainRel l (drainItems name rem l) := by
  intro rem l
  induction l generalizing rem with
  | nil => intro _; simp only [drainItems]; exact List.Forall₂.nil
  | cons it rest ih =>
    intro hrem
    simp only [drainItems]
    split
    · rename_i hmatch
      split
      · rename_i hle
        refine List.Forall₂.cons ⟨?_, ?_⟩ (forall2_drainRel_refl rest)
        · show it.quantity - rem ≤ it.quantity
          omega
        · intro h
          show (0 : Int) ≤ it.quantity - rem
          omega
      · rename_i hgt
        refine List.Forall₂.cons ⟨?_, ?_⟩ (ih _ (by omega))
        · show (0 : Int) ≤ it.quantity
          omega
        · intro h
          exact le_refl _
    · exact List.Forall₂.cons (drainRel_refl it) (ih _ hrem)

theorem totalPos_le_of_rel :
    ∀ {l l' : List Item}, List.Forall₂ drainRel l l' → totalPos l' ≤ totalPos l := by
  intro l
  induction l with
  | nil => intro l' h; cases h; exact le_refl _
  | cons a rest ih =>
    intro l' h
    cases h with
    | cons hab h' =>
      rename_i b l''
      simp only [totalPos, List.map_cons, List.sum_cons]
      have h1 : b.quantity.toNat ≤ a.quantity.toNat := Int.toNat_le_toNat hab.1
      have h2 := ih h'
      simp only [totalPos] at h2
      omega

theorem mergeUsed_rel :
    ∀ (us : List UsedEntry) (l : List Item), (∀ u ∈ us, 0 ≤ u.count) →
      List.Forall₂ drainRel l (mergeUsed l us) := by
  intro us
  induction us with
  | nil => intro l _; exact forall2_drainRel_refl l
  | cons u rest ih =>
    intro l hcounts
    simp only [mergeUsed]
    exact forall2_drainRel_trans
      (drainItems_rel u.name u.count l (hcounts u (List.mem_cons_self ..)))
      (ih _ fun v hv => hcounts v (List.mem_cons_of_mem _ hv))

theorem drainItems_totalPos_lt (name : String) :
    ∀ (rem : Int) (l : List Item), 0 < rem →
      (∃ it ∈ l, it.name = name ∧ 0 < it.quantity) →
      totalPos (drainItems name rem l) < totalPos l := by
  intro rem l
  induction l generalizing rem with
  | nil => intro _ h; simp at h
  | cons it rest ih =>
    intro hrem hex
    simp only [drainItems]
    split
    · rename_i hmatch
      split
      · rename_i hle
        simp only [totalPos, List.map_cons, List.sum_cons]
        have : (it.quantity - rem).toNat < it.quantity.toNat := by omega
        omega
      · rename_i hgt
        simp only [totalPos, List.map_cons, List.sum_cons]
        have h1 : totalPos (drainItems name (rem - it.quantity) rest) ≤ totalPos rest :=
          totalPos_le_of_rel (drainItems_rel name _ rest (by omega))
        have h2 : (0 : Int).toNat < it.quantity.toNat := by omega
        simp only [totalPos] at h1
        omega
    · rename_i hmiss
      obtain ⟨it0, hit0, hn0, hq0⟩ := hex
      rcases List.mem_cons.mp hit0 with heq | hmem
      · subst heq
        exact absurd ⟨hn0, hq0⟩ hmiss
      · simp only [totalPos, List.map_cons, List.sum_cons]
        have := ih rem hrem ⟨it0, hmem, hn0, hq0⟩
        simp only [totalPos] at this
        omega

/-- Key termination fact for the driver loop of `calculate_cutting`: when
`pack_single_fabric` places something, merging the used counts back
strictly decreases the total outstanding demand. -/
theorem mergeUsed_totalPos_lt {fw fh : Rat} {items : List Item}
    {ps : List Placement} {us : List UsedEntry}
    (hp : pack_single_fabric fw fh (items.filter fun it => 0 < it.quantity) = some (ps, us))
    (hps : ps ≠ []) :
    totalPos (mergeUsed items us) < totalPos items := by
  have hfacts := pack_used_facts hp
  obtain ⟨u, rest, hus⟩ : ∃ u rest, us = u :: rest := by
    cases h : us with
    | nil => exact absurd h (pack_us_ne_nil hp hps)
    | cons a b => exact ⟨a, b, rfl⟩
  subst hus
  obtain ⟨hc, it, hitf, hq, hn, hle⟩ := hfacts u (List.mem_cons_self ..)
  have hitems : it ∈ items := (List.mem_filter.mp hitf).1
  have h1 : totalPos (drainItems u.name u.count items) < totalPos items :=
    drainItems_totalPos_lt u.name u.count items hc ⟨it, hitems, hn, hq⟩
  have h2 : totalPos (mergeUsed (drainItems u.name u.count items) rest)
      ≤ totalPos (drainItems u.name u.count items) :=
    totalPos_le_of_rel (mergeUsed_rel rest _ fun v hv =>
      le_of_lt (hfacts v (List.mem_cons_of_mem _ hv)).1)
  calc totalPos (mergeUsed items (u :: rest))
      = totalPos (mergeUsed (drainItems u.name u.count items) rest) := rfl
    _ ≤ totalPos (drainItems u.name u.count items) := h2
    _ < totalPos items := h1

theorem usedFor_cons (u : UsedEntry) (us : List UsedEntry) (name : String) :
    usedFor (u :: us) name =
      if u.name = name then u.count + usedFor us name else usedFor us name := by
  simp only [usedFor, List.filter_cons]
  by_cases h : u.name = name
  · simp [h]
  · simp [h]

theorem usedFor_eq_zero {us : List UsedEntry} {name : String}
    (h : ∀ u ∈ us, u.name ≠ name) : usedFor us name = 0 := by
  induction us with
  | nil => rfl
  | cons u rest ih =>
    rw [usedFor_cons]
    rw [if_neg (h u (List.mem_cons_self ..))]
    exact ih fun v hv => h v (List.mem_cons_of_mem _ hv)

theorem packPass_isSome {fw fh : Rat} {rot : Bool} :
    ∀ {l : List Item}, (∀ it ∈ l, effWidth rot it ≠ 0 ∧ effHeight rot it ≠ 0) →
      ∃ r, packPass fw fh rot l = some r := by
  intro l
  induction l with
  | nil => intro _; exact ⟨([], []), rfl⟩
  | cons it rest ih =>
    intro h
    obtain ⟨⟨ps, us⟩, hrec⟩ := ih fun x hx => h x (List.mem_cons_of_mem _ hx)
    have hit := h it (List.mem_cons_self ..)
    simp only [packPass]
    rw [if_neg (by push_neg; exact hit)]
    rw [hrec]
    simp only
    split
    · exact ⟨_, rfl⟩
    · exact ⟨_, rfl⟩

theorem effWidth_pos {rot : Bool} {it : Item} (hw : 0 < it.width) (hh : 0 < it.height) :
    0 < effWidth rot it := by
  cases rot <;> simpa [effWidth]

theorem effHeight_pos {rot : Bool} {it : Item} (hw : 0 < it.width) (hh : 0 < it.height) :
    0 < effHeight rot it := by
  cases rot <;> simpa [effHeight]

theorem capacityOf_nonneg {fw fh : Rat} {rot : Bool} {it : Item}
    (hfw : 0 ≤ fw) (hfh : 0 ≤ fh) (hw : 0 < it.width) (hh : 0 < it.height) :
    0 ≤ capacityOf fw fh rot it :=
  mul_nonneg
    (Int.floor_nonneg.mpr (div_nonneg hfw (effWidth_pos hw hh).le))
    (Int.floor_nonneg.mpr (div_nonneg hfh (effHeight_pos hw hh).le))

/-- Each orientation pass places every item independently of the others:
its placed count is exactly `min(capacity, quantity)` computed against the
full panel. -/
theorem packPass_count {fw fh : Rat} {rot : Bool} :
    ∀ {l : List Item} {ps : List Placement} {us : List UsedEntry},
      packPass fw fh rot l = some (ps, us) → (l.map Item.name).Nodup →
      ∀ it ∈ l, 0 ≤ capacityOf fw fh rot it → 0 < it.quantity →
        usedFor us it.name = min (capacityOf fw fh rot it) it.quantity := by
  intro l
  induction l with
  | nil =>
    intro ps us h hnd it hit
    simp at hit
  | cons head rest ih =>
    intro ps us h hnd it hit hcap hq
    have hnd' : (rest.map Item.name).Nodup := (List.nodup_cons.mp hnd).2
    have hhead : head.name ∉ rest.map Item.name := (List.nodup_cons.mp hnd).1
    simp only [packPass] at h
    split at h
    · exact absurd h (by simp)
    · cases hrec : packPass fw fh rot rest with
      | none => rw [hrec] at h; exact absurd h (by simp)
      | some pr =>
        obtain ⟨ps', us'⟩ := pr
        rw [hrec] at h
        simp only at h
        have husrest : ∀ u ∈ us', u.name ≠ head.name := by
          intro u hu hne
          obtain ⟨_, it', hit', hn', _⟩ := packPass_used hrec u hu
          exact hhead (hne ▸ hn' ▸ List.mem_map_of_mem Item.name hit')
        rcases List.mem_cons.mp hit with heq | hmem
        · subst heq
          split at h
          · rename_i hpos
            simp only [Option.some.injEq, Prod.mk.injEq] at h
            rw [← h.2, usedFor_cons, if_pos rfl, usedFor_eq_zero husrest]
            show min (capacityOf fw fh rot it) it.quantity + 0
                = min (capacityOf fw fh rot it) it.quantity
            omega
          · rename_i hneg
            simp only [Option.some.injEq, Prod.mk.injEq] at h
            rw [← h.2, usedFor_eq_zero husrest]
            omega
        · have hname : head.name ≠ it.name := by
            intro hne
            exact hhead (hne ▸ List.mem_map_of_mem Item.name hmem)
          split at h
          · simp only [Option.some.injEq, Prod.mk.injEq] at h
            rw [← h.2, usedFor_cons, if_neg hname]
            exact ih hrec hnd' it hmem hcap hq
          · simp only [Option.some.injEq, Prod.mk.injEq] at h
            rw [← h.2]
            exact ih hrec hnd' it hmem hcap hq

theorem totalArea_cons (p : Placement) (ps : List Placement) :
    totalArea (p :: ps) = p.width * p.height * (p.count : Rat) + totalArea ps := by
  simp [totalArea]

theorem packPass_totalArea_nonneg {fw fh : Rat} {rot : Bool} :
    ∀ {l : List Item} {ps : List Placement} {us : List UsedEntry},
      (∀ it ∈ l, 0 < it.width ∧ 0 < it.height) →
      packPass fw fh rot l = some (ps, us) → 0 ≤ totalArea ps := by
  intro l
  induction l with
  | nil =>
    intro ps us _ h
    simp only [packPass, Option.some.injEq, Prod.mk.injEq] at h
    rw [← h.1]
    simp [totalArea]
  | cons it rest ih =>
    intro ps us hdims h
    simp only [packPass] at h
    split at h
    · exact absurd h (by simp)
    · cases hrec : packPass fw fh rot rest with
      | none => rw [hrec] at h; exact absurd h (by simp)
      | some pr =>
        obtain ⟨ps', us'⟩ := pr
        rw [hrec] at h
        simp only at h
        have hrest : 0 ≤ totalArea ps' :=
          ih (fun x hx => hdims x (List.mem_cons_of_mem _ hx)) hrec
        have hit := hdims it (List.mem_cons_self ..)
        split at h
        · rename_i hpos
          simp only [Option.some.injEq, Prod.mk.injEq] at h
          rw [← h.1, totalArea_cons]
          have h1 : (0:Rat) < effWidth rot it := effWidth_pos hit.1 hit.2
          have h2 : (0:Rat) < effHeight rot it := effHeight_pos hit.1 hit.2
          have h3 : (0:Rat) ≤ (min (capacityOf fw fh rot it) it.quantity : Int) := by
            exact_mod_cast le_of_lt hpos
          have := mul_nonneg (mul_nonneg h1.le h2.le) h3
          simp only at this ⊢
          linarith
        · simp only [Option.some.injEq, Prod.mk.injEq] at h
          rw [← h.1]
          exact hrest

theorem forall2_right_mem :
    ∀ {l l' : List Item}, List.Forall₂ drainRel l l' →
      ∀ b ∈ l', ∃ a ∈ l, drainRel a b := by
  intro l
  induction l with
  | nil =>
    intro l' h b hb
    cases h
    simp at hb
  | cons a rest ih =>
    intro l' h b hb
    cases h with
    | cons hab h' =>
      rcases List.mem_cons.mp hb with heq | hmem
      · exact ⟨a, List.mem_cons_self .., heq ▸ hab⟩
      · obtain ⟨a', ha', hr⟩ := ih h' b hmem
        exact ⟨a', List.mem_cons_of_mem _ ha', hr⟩

/-- When the unrotated pass covers strictly more area than the rotated
pass, `pack_single_fabric` keeps the unrotated result. -/
theorem pack_select_first {fw fh : Rat} {items : List Item}
    {p0 p1 : List Placement} {u0 u1 : List UsedEntry}
    (h0 : packPass fw fh false (sortItems (items.filter fun it => 0 < it.quantity)) = some (p0, u0))
    (h1 : packPass fw fh true (sortItems (items.filter fun it => 0 < it.quantity)) = some (p1, u1))
    (ha0 : 0 < totalArea p0) (hle : totalArea p1 ≤ totalArea p0) :
    pack_single_fabric fw fh items = some (p0, u0) := by
  unfold pack_single_fabric
  rw [h0, h1]
  simp only
  rw [if_pos ha0, if_neg (not_lt.mpr hle), if_pos ha0]

/-- When the rotated pass covers strictly more area, `pack_single_fabric`
returns the rotated result. -/
theorem pack_select_second {fw fh : Rat} {items : List Item}
    {p0 p1 : List Placement} {u0 u1 : List UsedEntry}
    (h0 : packPass fw fh false (sortItems (items.filter fun it => 0 < it.quantity)) = some (p0, u0))
    (h1 : packPass fw fh true (sortItems (items.filter fun it => 0 < it.quantity)) = some (p1, u1))
    (h0nn : 0 ≤ totalArea p0) (hlt : totalArea p0 < totalArea p1) :
    pack_single_fabric fw fh items = some (p1, u1) := by
  unfold pack_single_fabric
  rw [h0, h1]
  simp only
  have : (if 0 < totalArea p0 then totalArea p0 else 0) < totalArea p1 := by
    split
    · exact hlt
    · exact lt_of_le_of_lt h0nn hlt
  rw [if_pos this]

/-- One unfolding step of the cons-like evaluation of `packPass`. -/
theorem packPass_cons_pos {fw fh : Rat} {rot : Bool} {it : Item} {rest : List Item}
    {ps : List Placement} {us : List UsedEntry}
    (hw : effWidth rot it ≠ 0) (hh : effHeight rot it ≠ 0)
    (hrec : packPass fw fh rot rest = some (ps, us))
    (hpos : 0 < min (capacityOf fw fh rot it) it.quantity) :
    packPass fw fh rot (it :: rest) =
      some ({ width := effWidth rot it, height := effHeight rot it,
              count := min (capacityOf fw fh rot it) it.quantity, name := it.name } :: ps,
            { name := it.name, count := min (capacityOf fw fh rot it) it.quantity } :: us) := by
  simp only [packPass]
  rw [if_neg (by push_neg; exact ⟨hw, hh⟩), hrec]
  simp only
  rw [if_pos hpos]

/-- The driver loop does not depend on the exact fuel, as long as the
fuel exceeds the total outstanding demand. -/
theorem cuttingLoopAux_congr {fw fh : Rat} :
    ∀ {fuel1 : Nat} {items : List Item} {fuel2 : Nat},
      totalPos items < fuel1 → totalPos items < fuel2 →
      cuttingLoopAux fw fh fuel1 items = cuttingLoopAux fw fh fuel2 items := by
  intro fuel1
  induction fuel1 with
  | zero => intro items fuel2 h1; omega
  | succ f1 ih =>
    intro items fuel2 h1 h2
    cases fuel2 with
    | zero => omega
    | succ f2 =>
      simp only [cuttingLoopAux]
      by_cases hany : (items.any fun it => decide (0 < it.quantity)) = true
      · rw [if_pos hany, if_pos hany]
        cases hp : pack_single_fabric fw fh (items.filter fun it => 0 < it.quantity) with
        | none => rfl
        | some pr =>
          obtain ⟨ps, us⟩ := pr
          dsimp only
          by_cases hps : ps = []
          · rw [if_pos hps, if_pos hps]
          · rw [if_neg hps, if_neg hps]
            have hdec : totalPos (mergeUsed items us) < totalPos items :=
              mergeUsed_totalPos_lt hp hps
            rw [@ih (mergeUsed items us) f2 (by omega) (by omega)]
      · rw [if_neg hany, if_neg hany]

/-- Driver-loop unfolding: nothing outstanding — the loop stops without
consuming a panel. -/
theorem cuttingLoop_stop_none {fw fh : Rat} {items : List Item}
    (hany : (items.any fun it => decide (0 < it.quantity)) = false) :
    cuttingLoop fw fh items = some (0, items) := by
  unfold cuttingLoop
  simp only [cuttingLoopAux]
  rw [hany]
  simp

/-- Driver-loop unfolding: an empty placement list stops the loop. -/
theorem cuttingLoop_stop_empty {fw fh : Rat} {items : List Item} {us : List UsedEntry}
    (hp : pack_single_fabric fw fh (items.filter fun it => 0 < it.quantity) = some ([], us)) :
    cuttingLoop fw fh items = some (0, items) := by
  unfold cuttingLoop
  simp only [cuttingLoopAux]
  by_cases hany : (items.any fun it => decide (0 < it.quantity)) = true
  · rw [if_pos hany, hp]
    simp

  · rw [if_neg hany]

/-- Driver-loop unfolding: a non-empty placement list consumes one panel
and continues on the merged tracker. -/
theorem cuttingLoop_step {fw fh : Rat} {items : List Item}
    {ps : List Placement} {us : List UsedEntry} {n : Nat} {rest : List Item}
    (hp : pack_single_fabric fw fh (items.filter fun it => 0 < it.quantity) = some (ps, us))
    (hany : (items.any fun it => decide (0 < it.quantity)) = true)
    (hne : ps ≠ [])
    (hrec : cuttingLoop fw fh (mergeUsed items us) = some (n, rest)) :
    cuttingLoop fw fh items = some (n + 1, rest) := by
  have hdec : totalPos (mergeUsed items us) < totalPos items :=
    mergeUsed_totalPos_lt hp hne
  unfold cuttingLoop
  simp only [cuttingLoopAux]
  rw [if_pos hany, hp]
  simp only
  rw [if_neg hne]
  have hstable : cuttingLoopAux fw fh (totalPos items) (mergeUsed items us)
      = cuttingLoopAux fw fh (totalPos (mergeUsed items us) + 1) (mergeUsed items us) :=
    cuttingLoopAux_congr (by omega) (by omega)
  rw [hstable]
  unfold cuttingLoop at hrec
  rw [hrec]

theorem insertBatch_perm (a : BatchRow) (l : List BatchRow) :
    (insertBatch a l).Perm (a :: l) := by
  induction l with
  | nil => simp [insertBatch]
  | cons b rest ih =>
    by_cases h : a.id ≤ b.id
    · simp [insertBatch, h]
    · simp only [insertBatch, if_neg h]
      exact (ih.cons b).trans (List.Perm.swap a b rest)

theorem sortBatches_perm (l : List BatchRow) : (sortBatches l).Perm l := by
  induction l with
  | nil => simp [sortBatches]
  | cons a rest ih =>
    exact (insertBatch_perm a (sortBatches rest)).trans (ih.cons a)

/-- The batch-side join test only inspects the id and material id of each
batch row, so it can be read off the `(id, materialId)` projection. -/
theorem batchAny_eq_pairs (batches : List BatchRow) (mats : List MaterialRow)
    (scId : Nat) (name : String) :
    (batches.any fun sc => sc.id == scId && matchesName mats sc.materialId name)
      = ((batches.map fun b => (b.id, b.materialId)).any
          fun pr => pr.1 == scId && matchesName mats pr.2 name) := by
  induction batches with
  | nil => rfl
  | cons b rest ih => simp [List.any_cons, ih]

theorem pmLinks_congr {ocs : List OcRow} {mats : List MaterialRow}
    {batches batches' : List BatchRow}
    (hshape : (batches'.map fun b => (b.id, b.materialId))
      = (batches.map fun b => (b.id, b.materialId)))
    (oid : Nat) (name : String) (pm : PmRow) :
    pmLinks ocs batches' mats oid name pm = pmLinks ocs batches mats oid name pm := by
  unfold pmLinks
  rw [batchAny_eq_pairs, batchAny_eq_pairs, hshape]

theorem updateBatchRemainder_shape (db : DB) (bid : Nat) (t : Int) :
    ((updateBatchRemainder db bid t).batches.map fun b => (b.id, b.materialId))
      = (db.batches.map fun b => (b.id, b.materialId)) := by
  show ((db.batches.map fun b =>
      if b.id == bid then { b with remainder := b.remainder - t } else b).map
      fun b => (b.id, b.materialId)) = db.batches.map fun b => (b.id, b.materialId)
  rw [List.map_map]
  refine List.map_congr_left ?_
  intro b _
  by_cases h : b.id = bid <;> simp [Function.comp, h]

/-- Updating a batch remainder leaves every Assignment row untouched, so
the assigned total is unchanged. -/
theorem assignedTotal_updateBatch (db : DB) (bid : Nat) (t : Int)
    (oid : Nat) (name : String) :
    assignedTotal (updateBatchRemainder db bid t) oid name
      = assignedTotal db oid name := by
  unfold assignedTotal
  have hpred : ∀ pm ∈ db.pms,
      pmLinks (updateBatchRemainder db bid t).orderComps
        (updateBatchRemainder db bid t).batches
        (updateBatchRemainder db bid t).materials oid name pm
      = pmLinks db.orderComps db.batches db.materials oid name pm := by
    intro pm _
    exact pmLinks_congr (updateBatchRemainder_shape db bid t) oid name pm
  show ((db.pms.filter (pmLinks (updateBatchRemainder db bid t).orderComps
      (updateBatchRemainder db bid t).batches
      (updateBatchRemainder db bid t).materials oid name)).map (·.quantity)).sum
    = ((db.pms.filter (pmLinks db.orderComps db.batches db.materials oid name)).map
        (·.quantity)).sum
  rw [List.filter_congr hpred]

theorem totalRemainder_updatePm (db : DB) (pmId : Nat) (t : Int) (name : String) :
    totalRemainder (updatePmQuantity db pmId t) name = totalRemainder db name := rfl

theorem totalRemainder_insertPm (db : DB) (ocId scId : Nat) (qty : Int)
    (cost : Option Int) (name : String) :
    totalRemainder (insertPm db ocId scId qty cost) name = totalRemainder db name := rfl

/-- List-level accounting: decrementing the remainder of the unique row
with id `rid` (a row of the material) shifts the filtered remainder sum
by exactly `t`. -/
theorem sum_remainder_map_update (mats : List MaterialRow) (name : String)
    (rid : Nat) (t : Int) :
    ∀ l : List BatchRow, (l.map (·.id)).Nodup →
      (∃ b ∈ l, b.id = rid ∧ matchesName mats b.materialId name = true) →
      (((l.map fun b => if b.id == rid then { b with remainder := b.remainder - t } else b).filter
          fun b => matchesName mats b.materialId name).map (·.remainder)).sum
        = ((l.filter fun b => matchesName mats b.materialId name).map (·.remainder)).sum - t := by
  intro l
  induction l with
  | nil =>
    intro _ hex
    simp at hex
  | cons b rest ih =>
    intro hnd hex
    have hnd1 : b.id ∉ rest.map (·.id) := (List.nodup_cons.mp hnd).1
    have hnd2 : (rest.map (·.id)).Nodup := (List.nodup_cons.mp hnd).2
    obtain ⟨b0, hb0, hid, hm⟩ := hex
    by_cases hbid : b.id = rid
    · have hb0b : b0 = b := by
        rcases List.mem_cons.mp hb0 with h | h
        · exact h
        · exact absurd (show b.id ∈ rest.map (·.id) from
            (hbid.trans hid.symm) ▸ List.mem_map_of_mem (·.id) h) hnd1
      have hmb : matchesName mats b.materialId name = true := hb0b ▸ hm
      have hrest : (rest.map fun x =>
          if x.id == rid then { x with remainder := x.remainder - t } else x) = rest := by
        refine (List.map_congr_left ?_).trans (List.map_id rest)
        intro x hx
        have hxne : ¬ x.id = rid := fun hxe =>
          hnd1 ((hbid.trans hxe.symm) ▸ List.mem_map_of_mem (·.id) hx)
        simp [hxne]
      simp only [List.map_cons]
      rw [hrest]
      rw [if_pos (show (b.id == rid) = true from by simpa using hbid)]
      rw [List.filter_cons, List.filter_cons]
      rw [if_pos (show matchesName mats
        ({ b with remainder := b.remainder - t } : BatchRow).materialId name = true from hmb)]
      rw [if_pos hmb]
      simp only [List.map_cons, List.sum_cons]
      show b.remainder - t + _ = b.remainder + _ - t
      omega
    · have hb0r : b0 ∈ rest := by
        rcases List.mem_cons.mp hb0 with h | h
        · exact absurd (h ▸ hid) hbid
        · exact h
      have hrec := ih hnd2 ⟨b0, hb0r, hid, hm⟩
      simp only [List.map_cons]
      rw [if_neg (show ¬((b.id == rid) = true) from by simpa using hbid)]
      rw [List.filter_cons, List.filter_cons]
      by_cases hmb : matchesName mats b.materialId name = true
      · rw [if_pos hmb, if_pos hmb]
        simp only [List.map_cons, List.sum_cons]
        rw [hrec]
        omega
      · rw [if_neg hmb, if_neg hmb]
        exact hrec

/-- Decrementing one existing batch of the material decrements the total
remainder by exactly that amount. -/
theorem totalRemainder_update (db : DB) (rid : Nat) (t : Int) (name : String)
    (hids : (db.batches.map (·.id)).Nodup)
    (hmem : ∃ b ∈ db.batches, b.id = rid ∧ matchesName db.materials b.materialId name = true) :
    totalRemainder (updateBatchRemainder db rid t) name = totalRemainder db name - t :=
  sum_remainder_map_update db.materials name rid t db.batches hids hmem

theorem pmLinks_updatePm_entry (ocs : List OcRow) (batches : List BatchRow)
    (mats : List MaterialRow) (oid : Nat) (name : String) (pmId : Nat) (t : Int)
    (pm : PmRow) :
    pmLinks ocs batches mats oid name
        (if pm.id == pmId then { pm with quantity := pm.quantity + t } else pm)
      = pmLinks ocs batches mats oid name pm := by
  by_cases h : pm.id = pmId <;> simp [h, pmLinks]

/-- List-level accounting: crediting `t` to the unique row with id `pmId`
(a row satisfying the filter) shifts the filtered quantity sum by `t`. -/
theorem sum_quantity_map_update (p : PmRow → Bool) (pmId : Nat) (t : Int) :
    ∀ l : List PmRow, (l.map (·.id)).Nodup →
      (∀ pm : PmRow,
        p (if pm.id == pmId then { pm with quantity := pm.quantity + t } else pm) = p pm) →
      (∃ pm0 ∈ l, pm0.id = pmId ∧ p pm0 = true) →
      (((l.map fun pm =>
          if pm.id == pmId then { pm with quantity := pm.quantity + t } else pm).filter p).map
            (·.quantity)).sum
        = ((l.filter p).map (·.quantity)).sum + t := by
  intro l
  induction l with
  | nil =>
    intro _ _ hex
    simp at hex
  | cons a rest ih =>
    intro hnd hinv hex
    have hnd1 : a.id ∉ rest.map (·.id) := (List.nodup_cons.mp hnd).1
    have hnd2 : (rest.map (·.id)).Nodup := (List.nodup_cons.mp hnd).2
    obtain ⟨pm0, hpm0, hid, hp⟩ := hex
    by_cases haid : a.id = pmId
    · have hpm0a : pm0 = a := by
        rcases List.mem_cons.mp hpm0 with h | h
        · exact h
        · exact absurd (show a.id ∈ rest.map (·.id) from
            (haid.trans hid.symm) ▸ List.mem_map_of_mem (·.id) h) hnd1
      have hpa : p a = true := hpm0a ▸ hp
      have hpa2 : p ({ a with quantity := a.quantity + t } : PmRow) = true := by
        have := hinv a
        rw [if_pos (show (a.id == pmId) = true from by simpa using haid)] at this
        rw [this]
        exact hpa
      have hrest : (rest.map fun x =>
          if x.id == pmId then { x with quantity := x.quantity + t } else x) = rest := by
        refine (List.map_congr_left ?_).trans (List.map_id rest)
        intro x hx
        have hxne : ¬ x.id = pmId := fun hxe =>
          hnd1 ((haid.trans hxe.symm) ▸ List.mem_map_of_mem (·.id) hx)
        simp [hxne]
      simp only [List.map_cons]
      rw [hrest]
      rw [if_pos (show (a.id == pmId) = true from by simpa using haid)]
      rw [List.filter_cons, List.filter_cons]
      rw [if_pos hpa2, if_pos hpa]
      simp only [List.map_cons, List.sum_cons]
      show a.quantity + t + _ = a.quantity + _ + t
      omega
    · have hpm0r : pm0 ∈ rest := by
        rcases List.mem_cons.mp hpm0 with h | h
        · exact absurd (h ▸ hid) haid
        · exact h
      have hrec := ih hnd2 hinv ⟨pm0, hpm0r, hid, hp⟩
      simp only [List.map_cons]
      rw [if_neg (show ¬((a.id == pmId) = true) from by simpa using haid)]
      rw [List.filter_cons, List.filter_cons]
      by_cases hpa : p a = true
      · rw [if_pos hpa, if_pos hpa]
        simp only [List.map_cons, List.sum_cons]
        rw [hrec]
        omega
      · rw [if_neg hpa, if_neg hpa]
        exact hrec

/-- Crediting the Assignment found by the material lookup adds exactly the
transfer to the assigned total. -/
theorem assignedTotal_updatePm (db : DB) (oid : Nat) (name : String) (pm0 : PmRow)
    (t : Int) (hfind : pmForMaterial db oid name = some pm0)
    (hpmids : (db.pms.map (·.id)).Nodup) :
    assignedTotal (updatePmQuantity db pm0.id t) oid name
      = assignedTotal db oid name + t := by
  have hmem : pm0 ∈ db.pms := List.mem_of_find?_eq_some hfind
  have hp : pmLinks db.orderComps db.batches db.materials oid name pm0 = true :=
    List.find?_some hfind
  unfold assignedTotal
  show (((db.pms.map fun pm =>
      if pm.id == pm0.id then { pm with quantity := pm.quantity + t } else pm).filter
        (pmLinks db.orderComps db.batches db.materials oid name)).map (·.quantity)).sum
    = ((db.pms.filter (pmLinks db.orderComps db.batches db.materials oid name)).map
        (·.quantity)).sum + t
  exact sum_quantity_map_update _ pm0.id t db.pms hpmids
    (pmLinks_updatePm_entry db.orderComps db.batches db.materials oid name pm0.id t)
    ⟨pm0, hmem, rfl, hp⟩

/-- Inserting a new Assignment that satisfies the join adds its quantity
to the assigned total. -/
theorem assignedTotal_insertPm (db : DB) (oid : Nat) (name : String)
    (ocId scId : Nat) (qty : Int) (cost : Option Int)
    (hnew : pmLinks db.orderComps db.batches db.materials oid name
        { id := db.nextPmId, ocId := ocId, scId := scId,
          quantity := qty, cost := cost } = true) :
    assignedTotal (insertPm db ocId scId qty cost) oid name
      = assignedTotal db oid name + qty := by
  unfold assignedTotal
  show (((db.pms ++ [({ id := db.nextPmId, ocId := ocId, scId := scId,
                        quantity := qty, cost := cost } : PmRow)]).filter
      (pmLinks db.orderComps db.batches db.materials oid name)).map (·.quantity)).sum
    = ((db.pms.filter (pmLinks db.orderComps db.batches db.materials oid name)).map
        (·.quantity)).sum + qty
  rw [List.filter_append, List.map_append, List.sum_append]
  simp [List.filter_cons, hnew]

theorem updatePm_ids (db : DB) (pmId : Nat) (t : Int) :
    (updatePmQuantity db pmId t).pms.map (·.id) = db.pms.map (·.id) := by
  show ((db.pms.map fun pm =>
      if pm.id == pmId then { pm with quantity := pm.quantity + t } else pm).map (·.id))
    = db.pms.map (·.id)
  rw [List.map_map]
  refine List.map_congr_left ?_
  intro pm _
  by_cases h : pm.id = pmId <;> simp [Function.comp, h]

theorem insertPm_ids (db : DB) (ocId scId : Nat) (qty : Int) (cost : Option Int) :
    (insertPm db ocId scId qty cost).pms.map (·.id)
      = db.pms.map (·.id) ++ [db.nextPmId] := by
  show ((db.pms ++ [({ id := db.nextPmId, ocId := ocId, scId := scId,
                       quantity := qty, cost := cost } : PmRow)]).map (·.id)) = _
  rw [List.map_append]
  rfl

theorem updatePm_fresh (db : DB) (pmId : Nat) (t : Int)
    (hfresh : ∀ pm ∈ db.pms, pm.id < db.nextPmId) :
    ∀ pm ∈ (updatePmQuantity db pmId t).pms, pm.id < db.nextPmId := by
  intro pm hpm
  obtain ⟨pm', hpm', heq⟩ := List.mem_map.mp hpm
  subst heq
  by_cases h : pm'.id = pmId
  · simp [h]
    exact h ▸ hfresh pm' hpm'
  · simp [h]
    exact hfresh pm' hpm'

theorem firstOc_any {db : DB} {oid ocId : Nat} (h : firstOc db oid = some ocId) :
    (db.orderComps.any fun oc => oc.id == ocId && oc.orderId == oid) = true := by
  unfold firstOc at h
  cases hfind : db.orderComps.find? (fun oc => oc.orderId == oid) with
  | none => rw [hfind] at h; exact absurd h (by simp)
  | some oc =>
    rw [hfind] at h
    simp only [Option.map_some', Option.some.injEq] at h
    have hmem := List.mem_of_find?_eq_some hfind
    have hp : (oc.orderId == oid) = true := (List.find?_eq_some.mp hfind).1
    refine List.any_eq_true.mpr ⟨oc, hmem, ?_⟩
    rw [← h]
    simp [hp]

theorem firstOc_isSome {db : DB} {oid : Nat}
    (hoc : ∃ oc ∈ db.orderComps, oc.orderId = oid) :
    ∃ ocId, firstOc db oid = some ocId := by
  obtain ⟨oc, hmem, hoid⟩ := hoc
  unfold firstOc
  cases hfind : db.orderComps.find? (fun oc => oc.orderId == oid) with
  | none =>
    have : (db.orderComps.find? fun oc => oc.orderId == oid).isSome :=
      List.find?_isSome.mpr ⟨oc, hmem, by simp [hoid]⟩
    rw [hfind] at this
    simp at this
  | some oc' => exact ⟨oc'.id, by simp⟩

/-- Specification of one transfer step of the resolver. -/
theorem drainStep_spec (oid : Nat) (name : String) (db : DB) (rid : Nat)
    (rrem needed : Int)
    (hbids : (db.batches.map (·.id)).Nodup)
    (hpmids : (db.pms.map (·.id)).Nodup)
    (hfresh : ∀ pm ∈ db.pms, pm.id < db.nextPmId)
    (hoc : ∃ oc ∈ db.orderComps, oc.orderId = oid)
    (hbatch : ∃ b ∈ db.batches, b.id = rid ∧ matchesName db.materials b.materialId name = true) :
    (drainStep oid name db rid rrem needed).1.materials = db.materials
    ∧ (drainStep oid name db rid rrem needed).1.orders = db.orders
    ∧ (drainStep oid name db rid rrem needed).1.orderComps = db.orderComps
    ∧ (drainStep oid name db rid rrem needed).1.supplies = db.supplies
    ∧ ((drainStep oid name db rid rrem needed).1.batches.map fun b => (b.id, b.materialId))
        = (db.batches.map fun b => (b.id, b.materialId))
    ∧ ((drainStep oid name db rid rrem needed).1.pms.map (·.id)).Nodup
    ∧ (∀ pm ∈ (drainStep oid name db rid rrem needed).1.pms,
        pm.id < (drainStep oid name db rid rrem needed).1.nextPmId)
    ∧ totalRemainder (drainStep oid name db rid rrem needed).1 name
        = totalRemainder db name - min rrem needed
    ∧ assignedTotal (drainStep oid name db rid rrem needed).1 oid name
        = assignedTotal db oid name + min rrem needed
    ∧ (drainStep oid name db rid rrem needed).2 = needed - min rrem needed := by
  unfold drainStep
  cases hfind : pmForMaterial db oid name with
  | some pm0 =>
    dsimp only
    refine ⟨rfl, rfl, rfl, rfl, ?_, ?_, ?_, ?_, ?_, rfl⟩
    · exact updateBatchRemainder_shape (updatePmQuantity db pm0.id (min rrem needed)) rid
        (min rrem needed)
    · show (((updatePmQuantity db pm0.id (min rrem needed)).pms).map (·.id)).Nodup
      rw [updatePm_ids]
      exact hpmids
    · show ∀ pm ∈ (updatePmQuantity db pm0.id (min rrem needed)).pms, pm.id < db.nextPmId
      exact updatePm_fresh db pm0.id (min rrem needed) hfresh
    · exact totalRemainder_update (updatePmQuantity db pm0.id (min rrem needed)) rid
        (min rrem needed) name hbids hbatch
    · rw [assignedTotal_updateBatch]
      exact assignedTotal_updatePm db oid name pm0 (min rrem needed) hfind hpmids
  | none =>
    cases hoc2 : firstOc db oid with
    | none =>
      exfalso
      obtain ⟨ocId, h⟩ := firstOc_isSome hoc
      rw [hoc2] at h
      exact absurd h (by simp)
    | some ocId =>
      dsimp only
      obtain ⟨b0, hb0, hb0id, hb0m⟩ := hbatch
      have hanyOc := firstOc_any hoc2
      have hanySc : (db.batches.any fun sc =>
          sc.id == rid && matchesName db.materials sc.materialId name) = true :=
        List.any_eq_true.mpr ⟨b0, hb0, by simp [hb0id, hb0m]⟩
      have hnew : pmLinks db.orderComps db.batches db.materials oid name
          { id := db.nextPmId, ocId := ocId, scId := rid,
            quantity := min rrem needed, cost := none } = true := by
        simp only [pmLinks]
        rw [hanyOc, hanySc]
        rfl
      refine ⟨rfl, rfl, rfl, rfl, ?_, ?_, ?_, ?_, ?_, rfl⟩
      · exact updateBatchRemainder_shape (insertPm db ocId rid (min rrem needed) none) rid
          (min rrem needed)
      · show (((insertPm db ocId rid (min rrem needed) none).pms).map (·.id)).Nodup
        rw [insertPm_ids]
        rw [List.nodup_append]
        refine ⟨hpmids, List.nodup_singleton _, ?_⟩
        intro x hx hx2
        rw [List.mem_singleton] at hx2
        obtain ⟨pm, hpm, hpmid⟩ := List.mem_map.mp hx
        have := hfresh pm hpm
        omega
      · show ∀ pm ∈ (insertPm db ocId rid (min rrem needed) none).pms,
            pm.id < db.nextPmId + 1
        intro pm hpm
        rcases List.mem_append.mp hpm with h | h
        · have := hfresh pm h
          omega
        · rw [List.mem_singleton] at h
          subst h
          show db.nextPmId < db.nextPmId + 1
          omega
      · exact totalRemainder_update (insertPm db ocId rid (min rrem needed) none) rid
          (min rrem needed) name hbids ⟨b0, hb0, hb0id, hb0m⟩
      · rw [assignedTotal_updateBatch]
        exact assignedTotal_insertPm db oid name ocId rid (min rrem needed) none hnew

theorem exists_of_map_eq {α β : Type} {f : α → β} {l l' : List α}
    (h : l.map f = l'.map f) {x : α} (hx : x ∈ l) : ∃ y ∈ l', f y = f x := by
  have : f x ∈ l'.map f := by
    rw [← h]
    exact List.mem_map_of_mem f hx
  obtain ⟨y, hy, hfy⟩ := List.mem_map.mp this
  exact ⟨y, hy, hfy⟩

theorem drainRows_stall (oid : Nat) (name : String) :
    ∀ (rows : List (Nat × Int)) (db : DB) (needed : Int), needed ≤ 0 →
      drainRows oid name db rows needed = (db, needed) := by
  intro rows db needed h
  cases rows with
  | nil => rfl
  | cons r rest =>
    obtain ⟨rid, rrem⟩ := r
    simp only [drainRows]
    rw [if_pos h]

theorem drainRows_needed_nonneg (oid : Nat) (name : String) :
    ∀ (rows : List (Nat × Int)) (db : DB) (needed : Int), 0 ≤ needed →
      0 ≤ (drainRows oid name db rows needed).2 := by
  intro rows
  induction rows with
  | nil => intro db needed h; exact h
  | cons r rest ih =>
    obtain ⟨rid, rrem⟩ := r
    intro db needed h
    simp only [drainRows]
    by_cases hle : needed ≤ 0
    · rw [if_pos hle]; exact h
    · rw [if_neg hle]
      show 0 ≤ (drainRows oid name (drainStep oid name db rid rrem needed).1 rest
        (drainStep oid name db rid rrem needed).2).2
      have h2 : (drainStep oid name db rid rrem needed).2 = needed - min rrem needed := rfl
      refine ih _ _ ?_
      rw [h2]
      omega

theorem drainRows_covers (oid : Nat) (name : String) :
    ∀ (rows : List (Nat × Int)) (db : DB) (needed : Int),
      needed ≤ (rows.map (·.2)).sum → (∀ r ∈ rows, 0 < r.2) →
      (drainRows oid name db rows needed).2 ≤ 0 := by
  intro rows
  induction rows with
  | nil =>
    intro db needed hsum _
    simpa using hsum
  | cons r rest ih =>
    obtain ⟨rid, rrem⟩ := r
    intro db needed hsum hpos
    simp only [drainRows]
    by_cases hle : needed ≤ 0
    · rw [if_pos hle]; exact hle
    · rw [if_neg hle]
      show (drainRows oid name (drainStep oid name db rid rrem needed).1 rest
        (drainStep oid name db rid rrem needed).2).2 ≤ 0
      have h2 : (drainStep oid name db rid rrem needed).2 = needed - min rrem needed := rfl
      rcases le_total rrem needed with hmin | hmin
      · refine ih _ _ ?_ fun r hr => hpos r (List.mem_cons_of_mem _ hr)
        rw [h2, min_eq_left hmin]
        simp only [List.map_cons, List.sum_cons] at hsum
        omega
      · have hz : (drainStep oid name db rid rrem needed).2 = 0 := by
          rw [h2, min_eq_right hmin]
          omega
        rw [hz, drainRows_stall oid name rest _ 0 (le_refl 0)]

/-- Specification of the whole batch-drain loop: the store outside the
touched tables is unchanged, batch ids and materials are preserved, and
the total remainder decrease equals the total assignment increase equals
the transferred amount `needed - needed_final`. -/
theorem drainRows_spec (oid : Nat) (name : String) :
    ∀ (rows : List (Nat × Int)) (db : DB) (needed : Int),
      (db.batches.map (·.id)).Nodup →
      (db.pms.map (·.id)).Nodup →
      (∀ pm ∈ db.pms, pm.id < db.nextPmId) →
      (∃ oc ∈ db.orderComps, oc.orderId = oid) →
      (∀ r ∈ rows, ∃ b ∈ db.batches, b.id = r.1
        ∧ matchesName db.materials b.materialId name = true) →
      (drainRows oid name db rows needed).1.materials = db.materials
      ∧ (drainRows oid name db rows needed).1.orders = db.orders
      ∧ (drainRows oid name db rows needed).1.orderComps = db.orderComps
      ∧ (drainRows oid name db rows needed).1.supplies = db.supplies
      ∧ ((drainRows oid name db rows needed).1.batches.map fun b => (b.id, b.materialId))
          = (db.batches.map fun b => (b.id, b.materialId))
      ∧ totalRemainder (drainRows oid name db rows needed).1 name
          = totalRemainder db name - (needed - (drainRows oid name db rows needed).2)
      ∧ assignedTotal (drainRows oid name db rows needed).1 oid name
          = assignedTotal db oid name + (needed - (drainRows oid name db rows needed).2) := by
  intro rows
  induction rows with
  | nil =>
    intro db needed _ _ _ _ _
    refine ⟨rfl, rfl, rfl, rfl, rfl, ?_, ?_⟩
    · show totalRemainder db name = totalRemainder db name - (needed - needed)
      omega
    · show assignedTotal db oid name = assignedTotal db oid name + (needed - needed)
      omega
  | cons r rest ih =>
    obtain ⟨rid, rrem⟩ := r
    intro db needed hbids hpmids hfresh hoc hrows
    simp only [drainRows]
    by_cases hle : needed ≤ 0
    · rw [if_pos hle]
      refine ⟨rfl, rfl, rfl, rfl, rfl, ?_, ?_⟩
      · show totalRemainder db name = totalRemainder db name - (needed - needed)
        omega
      · show assignedTotal db oid name = assignedTotal db oid name + (needed - needed)
        omega
    · rw [if_neg hle]
      obtain ⟨hm1, hm2, hm3, hm4, hm5, hm6, hm7, hm8, hm9, hm10⟩ :=
        drainStep_spec oid name db rid rrem needed hbids hpmids hfresh hoc
          (hrows (rid, rrem) (List.mem_cons_self ..))
      have hidmap : (drainStep oid name db rid rrem needed).1.batches.map (·.id)
          = db.batches.map (·.id) := by
        have e1 : ((drainStep oid name db rid rrem needed).1.batches.map
            fun b => (b.id, b.materialId)).map Prod.fst
            = (db.batches.map fun b => (b.id, b.materialId)).map Prod.fst := by rw [hm5]
        rw [List.map_map, List.map_map] at e1
        exact e1
      have hbids' : ((drainStep oid name db rid rrem needed).1.batches.map (·.id)).Nodup := by
        rw [hidmap]; exact hbids
      have hoc' : ∃ oc ∈ (drainStep oid name db rid rrem needed).1.orderComps,
          oc.orderId = oid := by rw [hm3]; exact hoc
      have hrows' : ∀ r ∈ rest, ∃ b ∈ (drainStep oid name db rid rrem needed).1.batches,
          b.id = r.1 ∧ matchesName (drainStep oid name db rid rrem needed).1.materials
            b.materialId name = true := by
        intro r hr
        obtain ⟨b, hb, hbid, hbm⟩ := hrows r (List.mem_cons_of_mem _ hr)
        obtain ⟨b', hb', hfb⟩ := exists_of_map_eq hm5.symm hb
        simp only [Prod.mk.injEq] at hfb
        refine ⟨b', hb', hfb.1.trans hbid, ?_⟩
        rw [hm1, hfb.2]
        exact hbm
      obtain ⟨hr1, hr2, hr3, hr4, hr5, hr6, hr7⟩ :=
        ih (drainStep oid name db rid rrem needed).1
          (drainStep oid name db rid rrem needed).2 hbids' hm6 hm7 hoc' hrows'
      refine ⟨hr1.trans hm1, hr2.trans hm2, hr3.trans hm3, hr4.trans hm4,
        hr5.trans hm5, ?_, ?_⟩
      · rw [hr6, hm8, hm10]
        omega
      · rw [hr7, hm9, hm10]
        omega

theorem remainderRows_mem {db : DB} {name : String} :
    ∀ r ∈ remainderRows db name, ∃ b ∈ db.batches, b.id = r.1 ∧ 0 < r.2 ∧ r.2 = b.remainder
      ∧ matchesName db.materials b.materialId name = true := by
  intro r hr
  unfold remainderRows at hr
  obtain ⟨b, hb, hbr⟩ := List.mem_map.mp hr
  have hb2 : b ∈ db.batches.filter fun b =>
      matchesName db.materials b.materialId name && decide (0 < b.remainder) :=
    (sortBatches_perm _).mem_iff.mp hb
  have hb3 := List.mem_filter.mp hb2
  have hband : matchesName db.materials b.materialId name = true
      ∧ decide (0 < b.remainder) = true := by
    have := hb3.2
    simp only [Bool.and_eq_true] at this
    exact this
  refine ⟨b, hb3.1, ?_, ?_, ?_, hband.1⟩
  · rw [← hbr]
  · rw [← hbr]
    exact of_decide_eq_true hband.2
  · rw [← hbr]

/-- Dropping zero-remainder rows from the material filter does not change
the remainder sum. -/
theorem sum_filter_pos_remainder (mats : List MaterialRow) (name : String) :
    ∀ l : List BatchRow, (∀ b ∈ l, 0 ≤ b.remainder) →
      (((l.filter fun b => matchesName mats b.materialId name
          && decide (0 < b.remainder)).map (·.remainder)).sum)
        = ((l.filter fun b => matchesName mats b.materialId name).map (·.remainder)).sum := by
  intro l
  induction l with
  | nil => intro _; rfl
  | cons b rest ih =>
    intro hrem
    have hrec := ih fun x hx => hrem x (List.mem_cons_of_mem _ hx)
    rw [List.filter_cons, List.filter_cons]
    by_cases hmb : matchesName mats b.materialId name = true
    · by_cases hpr : 0 < b.remainder
      · rw [if_pos (by simp [hmb, hpr]), if_pos hmb]
        simp only [List.map_cons, List.sum_cons, hrec]
      · rw [if_neg (by simp [hmb, hpr]), if_pos hmb]
        have : b.remainder = 0 := le_antisymm (not_lt.mp hpr) (hrem b (List.mem_cons_self ..))
        simp only [List.map_cons, List.sum_cons, hrec, this]
        omega
    · rw [if_neg (by simp [hmb]), if_neg hmb]
      exact hrec

theorem remainderRows_sum {db : DB} {name : String}
    (hrem : ∀ b ∈ db.batches, 0 ≤ b.remainder) :
    ((remainderRows db name).map (·.2)).sum = totalRemainder db name := by
  unfold remainderRows totalRemainder
  rw [List.map_map]
  have hperm := (sortBatches_perm (db.batches.filter fun b =>
    matchesName db.materials b.materialId name && decide (0 < b.remainder))).map
    fun b => ((fun r : Nat × Int => r.2) ∘ fun b : BatchRow => (b.id, b.remainder)) b
  rw [hperm.sum_eq]
  have : (db.batches.filter fun b => matchesName db.materials b.materialId name
      && decide (0 < b.remainder)).map
        ((fun r : Nat × Int => r.2) ∘ fun b : BatchRow => (b.id, b.remainder))
      = (db.batches.filter fun b => matchesName db.materials b.materialId name
          && decide (0 < b.remainder)).map (·.remainder) := rfl
  rw [this]
  exact sum_filter_pos_remainder db.materials name db.batches hrem

/-- Claim C3: Remainder conservation: when the Allocation Resolver resolves
a materials shortage from remainder (total remainder of its batches at
least the shortage, all remainders non-negative per the data model, an
order-composition row present as on every reachable path), the total
amount decremented from batch remainders equals the total quantity added
to the orders Assignments for that material, and both equal the original
shortage. -/
theorem resolveMaterial_conservation (db : DB) (oid : Nat) (name : String)
    (shortage : Int)
    (hbids : (db.batches.map (·.id)).Nodup)
    (hpmids : (db.pms.map (·.id)).Nodup)
    (hfresh : ∀ pm ∈ db.pms, pm.id < db.nextPmId)
    (hoc : ∃ oc ∈ db.orderComps, oc.orderId = oid)
    (hrem : ∀ b ∈ db.batches, 0 ≤ b.remainder)
    (hpos : 0 < shortage)
    (hcover : shortage ≤ totalRemainder db name) :
    totalRemainder db name
        - totalRemainder (resolveMaterial oid db name shortage) name = shortage
    ∧ assignedTotal (resolveMaterial oid db name shortage) oid name
        - assignedTotal db oid name = shortage := by
  unfold resolveMaterial
  have hrows : ∀ r ∈ remainderRows db name, ∃ b ∈ db.batches, b.id = r.1
      ∧ matchesName db.materials b.materialId name = true := by
    intro r hr
    obtain ⟨b, hb, hbid, _, _, hbm⟩ := remainderRows_mem r hr
    exact ⟨b, hb, hbid, hbm⟩
  have hposrows : ∀ r ∈ remainderRows db name, 0 < r.2 := by
    intro r hr
    obtain ⟨b, _, _, hpr, _, _⟩ := remainderRows_mem r hr
    exact hpr
  obtain ⟨_, _, _, _, _, h6, h7⟩ :=
    drainRows_spec oid name (remainderRows db name) db shortage hbids hpmids hfresh hoc hrows
  have hcov := drainRows_covers oid name (remainderRows db name) db shortage
    (by rw [remainderRows_sum hrem]; exact hcover) hposrows
  have hnn := drainRows_needed_nonneg oid name (remainderRows db name) db shortage
    (le_of_lt hpos)
  have hzero : (drainRows oid name db (remainderRows db name) shortage).2 = 0 :=
    le_antisymm hcov hnn
  rw [hzero] at h6 h7
  constructor
  · omega
  · omega

theorem find_map_update (l : List OrderRow) (oid : Nat) (st : String)
    (h : ∃ o ∈ l, o.id = oid) :
    ((l.map fun o => if o.id == oid then { o with status := st } else o).find?
      fun o => o.id == oid).map (·.status) = some st := by
  induction l with
  | nil => simp at h
  | cons o rest ih =>
    by_cases hid : o.id = oid
    · simp only [List.map_cons]
      rw [if_pos (by simpa using hid)]
      rw [List.find?_cons_of_pos _ (by simpa using hid)]
      rfl
    · simp only [List.map_cons]
      rw [if_neg (by simpa using hid)]
      rw [List.find?_cons_of_neg _ (by simpa using hid)]
      refine ih ?_
      obtain ⟨o0, ho0, ho0id⟩ := h
      rcases List.mem_cons.mp ho0 with he | he
      · exact absurd (he ▸ ho0id) hid
      · exact ⟨o0, he, ho0id⟩

theorem statusOf_update (db : DB) (oid : Nat) (st : String)
    (h : ∃ o ∈ db.orders, o.id = oid) :
    statusOf (updateOrderStatus db oid st) oid = some st :=
  find_map_update db.orders oid st h

theorem drainStep_orders (oid : Nat) (name : String) (db : DB) (rid : Nat)
    (rrem needed : Int) :
    (drainStep oid name db rid rrem needed).1.orders = db.orders := by
  unfold drainStep
  cases pmForMaterial db oid name with
  | some pm => rfl
  | none =>
    cases firstOc db oid with
    | some ocId => rfl
    | none => rfl

theorem drainRows_orders (oid : Nat) (name : String) :
    ∀ (rows : List (Nat × Int)) (db : DB) (needed : Int),
      (drainRows oid name db rows needed).1.orders = db.orders := by
  intro rows
  induction rows with
  | nil => intro db needed; rfl
  | cons r rest ih =>
    obtain ⟨rid, rrem⟩ := r
    intro db needed
    simp only [drainRows]
    by_cases hle : needed ≤ 0
    · rw [if_pos hle]
    · rw [if_neg hle]
      exact (ih _ _).trans (drainStep_orders oid name db rid rrem needed)

theorem resolveAll_orders (oid : Nat) :
    ∀ (shortage : List (String × Int)) (db : DB),
      (resolveAll db oid shortage).orders = db.orders := by
  intro shortage
  induction shortage with
  | nil => intro db; rfl
  | cons e rest ih =>
    intro db
    show (resolveAll (resolveMaterial oid db e.1 e.2) oid rest).orders = db.orders
    rw [ih]
    exact drainRows_orders oid e.1 _ db e.2

theorem createSupplyOne_orders (oid : Nat) (today : String) (db : DB)
    (entry : String × Int) :
    (createSupplyOne oid today db entry).orders = db.orders := by
  unfold createSupplyOne
  cases materialIdByName db entry.1 with
  | none => rfl
  | some mid =>
    dsimp only
    split
    · rfl
    · rfl

theorem foldCreate_orders (oid : Nat) (today : String) :
    ∀ (shortage : List (String × Int)) (db : DB),
      (shortage.foldl (createSupplyOne oid today) db).orders = db.orders := by
  intro shortage
  induction shortage with
  | nil => intro db; rfl
  | cons e rest ih =>
    intro db
    show (rest.foldl (createSupplyOne oid today) (createSupplyOne oid today db e)).orders
      = db.orders
    rw [ih]
    exact createSupplyOne_orders oid today db e

theorem insertBatch_sorted (a : BatchRow) :
    ∀ l : List BatchRow, List.Pairwise (fun x y : BatchRow => x.id ≤ y.id) l →
      List.Pairwise (fun x y : BatchRow => x.id ≤ y.id) (insertBatch a l) := by
  intro l
  induction l with
  | nil => intro _; simp [insertBatch]
  | cons b rest ih =>
    intro hs
    have hs1 := (List.pairwise_cons.mp hs).1
    have hs2 := (List.pairwise_cons.mp hs).2
    by_cases hle : a.id ≤ b.id
    · rw [insertBatch, if_pos hle]
      refine List.Pairwise.cons ?_ hs
      intro x hx
      rcases List.mem_cons.mp hx with he | he
      · exact he ▸ hle
      · exact le_trans hle (hs1 x he)
    · rw [insertBatch, if_neg hle]
      refine List.Pairwise.cons ?_ (ih hs2)
      intro x hx
      have hx2 := (insertBatch_perm a rest).mem_iff.mp hx
      rcases List.mem_cons.mp hx2 with he | he
      · subst he
        omega
      · exact hs1 x he

theorem sortBatches_sorted :
    ∀ l : List BatchRow, List.Pairwise (fun x y : BatchRow => x.id ≤ y.id) (sortBatches l) := by
  intro l
  induction l with
  | nil => simp [sortBatches]
  | cons a rest ih => exact insertBatch_sorted a (sortBatches rest) ih

/-- The drained rows are produced in ascending batch-id order. -/
theorem remainderRows_sorted (db : DB) (name : String) :
    List.Pairwise (fun r s : Nat × Int => r.1 ≤ s.1) (remainderRows db name) := by
  unfold remainderRows
  exact List.Pairwise.map _ (fun a b h => h) (sortBatches_sorted _)

/-- Claim C1: After a full Reconciler + Resolver pass on the current order
the status is updated as follows: empty merged shortage map gives
"Готово в цеху" (ReadyInWorkshop); a non-empty map in which every
material is covered by its total uncommitted remainder gives "Раскрой"
(Cutting); an uncovered map with a confirming user gives
"Заказ материалов" (MaterialsOrdered); an uncovered map with a declining
user leaves the store — and hence the status — unchanged. The four cases
are exhaustive, so no other transition is reachable from this pass. -/
theorem claim_C1_state_machine (db : DB) (oid : Nat)
    (shortage : List (String × Int)) (confirm : Bool) (today : String)
    (horder : ∃ o ∈ db.orders, o.id = oid) :
    (shortage = [] →
      statusOf (check_and_prompt_supply_request db oid shortage confirm today) oid
        = some "Готово в цеху")
    ∧ (shortage ≠ [] → (∀ e ∈ shortage, e.2 ≤ totalRemainder db e.1) →
      statusOf (check_and_prompt_supply_request db oid shortage confirm today) oid
        = some "Раскрой")
    ∧ (shortage ≠ [] → (∃ e ∈ shortage, totalRemainder db e.1 < e.2) → confirm = true →
      statusOf (check_and_prompt_supply_request db oid shortage confirm today) oid
        = some "Заказ материалов")
    ∧ (shortage ≠ [] → (∃ e ∈ shortage, totalRemainder db e.1 < e.2) → confirm = false →
      check_and_prompt_supply_request db oid shortage confirm today = db) := by
  refine ⟨?_, ?_, ?_, ?_⟩
  · intro hempty
    subst hempty
    unfold check_and_prompt_supply_request
    rw [if_pos (show ([] : List (String × Int)).isEmpty = true from rfl)]
    exact statusOf_update db oid _ horder
  · intro hne hall
    unfold check_and_prompt_supply_request
    rw [if_neg (by simpa [List.isEmpty_iff] using hne)]
    rw [if_pos (List.all_eq_true.mpr fun e he => decide_eq_true (hall e he))]
    refine statusOf_update _ oid _ ?_
    rw [resolveAll_orders oid shortage db]
    exact horder
  · intro hne hins hc
    subst hc
    unfold check_and_prompt_supply_request
    rw [if_neg (by simpa [List.isEmpty_iff] using hne)]
    rw [if_neg ?hall]
    case hall =>
      intro hall
      obtain ⟨e, he, hlt⟩ := hins
      exact absurd (of_decide_eq_true (List.all_eq_true.mp hall e he)) (not_le.mpr hlt)
    rw [if_pos rfl]
    unfold create_supply_requests
    refine statusOf_update _ oid _ ?_
    rw [foldCreate_orders oid today shortage db]
    exact horder
  · intro hne hins hc
    subst hc
    unfold check_and_prompt_supply_request
    rw [if_neg (by simpa [List.isEmpty_iff] using hne)]
    rw [if_neg ?hall2]
    case hall2 =>
      intro hall
      obtain ⟨e, he, hlt⟩ := hins
      exact absurd (of_decide_eq_true (List.all_eq_true.mp hall e he)) (not_le.mpr hlt)
    rw [if_neg (by simp)]

theorem claim_C1_state_machine_witness :
    statusOf (check_and_prompt_supply_request storeC1 1 [] true "2026-01-01") 1
      = some "Готово в цеху" :=
  (claim_C1_state_machine storeC1 1 [] true "2026-01-01" (by decide)).1 rfl

/-- Claim C5: On the unresolvable path (non-empty shortage, some material
with insufficient total remainder) no store mutation happens before the
confirmation: declining leaves the store exactly as it was, and
confirming applies `create_supply_requests` to the *original* store, so
every mutation happens after — and only because of — the confirmation. -/
theorem claim_C5_no_mutation_before_confirm (db : DB) (oid : Nat)
    (shortage : List (String × Int)) (today : String)
    (hne : shortage ≠ [])
    (hins : ∃ e ∈ shortage, totalRemainder db e.1 < e.2) :
    check_and_prompt_supply_request db oid shortage false today = db
    ∧ check_and_prompt_supply_request db oid shortage true today
        = create_supply_requests db oid shortage today := by
  have hall : ¬ ((shortage.all fun e => decide (e.2 ≤ totalRemainder db e.1)) = true) := by
    intro hall
    obtain ⟨e, he, hlt⟩ := hins
    exact absurd (of_decide_eq_true (List.all_eq_true.mp hall e he)) (not_le.mpr hlt)
  constructor
  · unfold check_and_prompt_supply_request
    rw [if_neg (by simpa [List.isEmpty_iff] using hne), if_neg hall, if_neg (by simp)]
  · unfold check_and_prompt_supply_request
    rw [if_neg (by simpa [List.isEmpty_iff] using hne), if_neg hall, if_pos rfl]

theorem claim_C5_no_mutation_before_confirm_witness :
    check_and_prompt_supply_request storeC1 1 [("M", 5)] false "2026-01-01" = storeC1 :=
  (claim_C5_no_mutation_before_confirm storeC1 1 [("M", 5)] "2026-01-01"
    (by decide) (by decide)).1

/-- Claim C2 counterexample: In `storeC2` the whole shortage (2 units of
"M") is drawn from batch 2, which no Assignment of order 7 references;
the claim then demands a new zero-cost Assignment bound to batch 2, but
the code instead credits the existing Assignment bound to batch 1 (looked
up by material, not by batch): after the pass no Assignment referencing
batch 2 exists, even though batch 2 contributed (its remainder dropped
from 5 to 3). -/
theorem claim_C2_counterexample :
    (∀ pm ∈ storeC2.pms, pm.scId ≠ 2)
    ∧ (((resolveMaterial 7 storeC2 "M" 2).batches.find? fun b => b.id == 2).map
        (·.remainder) = some 3)
    ∧ ¬ ∃ pm ∈ (resolveMaterial 7 storeC2 "M" 2).pms, pm.scId = 2 := by
  decide

/-- Claim C2, amended: Each transfer step contributes
`min(batch.remainder, stillNeeded)`: it credits the *first existing
Assignment binding the order to the material* (whichever batch that
Assignment references) if one exists; otherwise it inserts a new
zero-cost Assignment bound to the contributing batch, provided the order
has a composition row (and does nothing to Assignments otherwise); it
then decrements the contributing batch remainder by the transfer and
reduces the outstanding need accordingly. The loop processes the
positive-remainder batches of the material in ascending batch-id order
and stops once the need is met. -/
theorem claim_C2_transfer_step (db : DB) (oid : Nat) (name : String)
    (rid : Nat) (rrem needed : Int) :
    (∀ pm0, pmForMaterial db oid name = some pm0 →
      (drainStep oid name db rid rrem needed).1.pms
        = db.pms.map fun pm =>
            if pm.id == pm0.id then
              { pm with quantity := pm.quantity + min rrem needed } else pm)
    ∧ (pmForMaterial db oid name = none →
      ∀ ocId, firstOc db oid = some ocId →
        (drainStep oid name db rid rrem needed).1.pms
          = db.pms ++ [{ id := db.nextPmId, ocId := ocId, scId := rid,
                         quantity := min rrem needed, cost := none }])
    ∧ (pmForMaterial db oid name = none → firstOc db oid = none →
      (drainStep oid name db rid rrem needed).1.pms = db.pms)
    ∧ ((drainStep oid name db rid rrem needed).1.batches
        = db.batches.map fun b =>
            if b.id == rid then
              { b with remainder := b.remainder - min rrem needed } else b)
    ∧ ((drainStep oid name db rid rrem needed).2 = needed - min rrem needed)
    ∧ List.Pairwise (fun r s : Nat × Int => r.1 ≤ s.1) (remainderRows db name)
    ∧ (∀ r ∈ remainderRows db name, ∃ b ∈ db.batches, b.id = r.1 ∧ 0 < r.2
        ∧ r.2 = b.remainder ∧ matchesName db.materials b.materialId name = true)
    ∧ (needed ≤ 0 → ∀ rows, drainRows oid name db rows needed = (db, needed))
    ∧ (0 < needed → ∀ rest, drainRows oid name db ((rid, rrem) :: rest) needed
        = drainRows oid name (drainStep oid name db rid rrem needed).1 rest
            (drainStep oid name db rid rrem needed).2) := by
  refine ⟨?_, ?_, ?_, ?_, ?_, remainderRows_sorted db name, remainderRows_mem, ?_, ?_⟩
  · intro pm0 hf
    unfold drainStep
    rw [hf]
    rfl
  · intro hf ocId ho
    unfold drainStep
    rw [hf, ho]
    rfl
  · intro hf ho
    unfold drainStep
    rw [hf, ho]
    rfl
  · unfold drainStep
    cases pmForMaterial db oid name with
    | some pm => rfl
    | none =>
      cases firstOc db oid with
      | some ocId => rfl
      | none => rfl
  · unfold drainStep
    cases pmForMaterial db oid name with
    | some pm => rfl
    | none =>
      cases firstOc db oid with
      | some ocId => rfl
      | none => rfl
  · intro h rows
    exact drainRows_stall oid name rows db needed h
  · intro h rest
    simp only [drainRows]
    rw [if_neg (not_le.mpr h)]

theorem claim_C2_transfer_step_witness :
    (drainStep 7 "M" storeC2 2 5 2).1.batches
      = storeC2.batches.map fun b =>
          if b.id == 2 then { b with remainder := b.remainder - min 5 2 } else b :=
  (claim_C2_transfer_step storeC2 7 "M" 2 5 2).2.2.2.1

theorem resolveMaterial_conservation_witness :
    totalRemainder storeC2 "M" - totalRemainder (resolveMaterial 7 storeC2 "M" 2) "M" = 2
    ∧ assignedTotal (resolveMaterial 7 storeC2 "M" 2) 7 "M"
        - assignedTotal storeC2 7 "M" = 2 :=
  resolveMaterial_conservation storeC2 7 "M" 2 (by decide) (by decide) (by decide)
    (by decide) (by decide) (by decide) (by decide)

/-- Claim C7 counterexample: For a shortage of material "M" on order 9,
which has no order-composition row, the claim says the material is
skipped; the code nevertheless creates the intake record and the pending
batch (only the placeholder Assignment is skipped): the batch table
grows. -/
theorem claim_C7_counterexample :
    ((storeC7.orderComps.filter fun oc => oc.orderId == 9) = [])
    ∧ ¬ ((create_supply_requests storeC7 9 [("M", 5)] "2026-01-01").batches.length
        = storeC7.batches.length) := by
  decide

/-- Claim C7, amended: For each shortage entry: if the material name is
missing from `material`, the entry is skipped entirely and processing
continues with the remaining materials; otherwise a new intake record is
created (requester employee 1, no supplier, zero total amount, the
current date) together with a pending batch of the material with
`quantity` equal to the shortage, status "Ждёт подтверждения" and
`remainder = 0`; a zero-quantity placeholder Assignment bound to the new
batch is added only when the order has a composition row — when it has
none, only the placeholder is skipped while the intake and the batch are
still created. -/
theorem claim_C7_supply_request_rows (db : DB) (oid : Nat) (today name : String)
    (s : Int) :
    (materialIdByName db name = none →
      createSupplyOne oid today db (name, s) = db)
    ∧ (∀ rest, materialIdByName db name = none →
      create_supply_requests db oid ((name, s) :: rest) today
        = create_supply_requests db oid rest today)
    ∧ (∀ mid, materialIdByName db name = some mid →
      (createSupplyOne oid today db (name, s)).supplies
          = db.supplies ++ [{ id := db.nextSupplyId, employeeId := 1, supplierId := none,
                              totalAmount := 0, date := today }]
      ∧ (createSupplyOne oid today db (name, s)).batches
          = db.batches ++ [{ id := db.nextBatchId, supplyId := db.nextSupplyId,
                             materialId := mid, quantity := s, width := none, height := none,
                             status := "Ждёт подтверждения", remainder := 0 }]
      ∧ (firstOc db oid = none → (createSupplyOne oid today db (name, s)).pms = db.pms)
      ∧ (∀ ocId, firstOc db oid = some ocId →
          (createSupplyOne oid today db (name, s)).pms
            = db.pms ++ [{ id := db.nextPmId, ocId := ocId, scId := db.nextBatchId,
                           quantity := 0, cost := none }])) := by
  refine ⟨?_, ?_, ?_⟩
  · intro hm
    unfold createSupplyOne
    rw [hm]
  · intro rest hm
    unfold create_supply_requests
    show updateOrderStatus (rest.foldl (createSupplyOne oid today)
        (createSupplyOne oid today db (name, s))) oid "Заказ материалов" = _
    have : createSupplyOne oid today db (name, s) = db := by
      unfold createSupplyOne
      rw [hm]
    rw [this]
  · intro mid hm
    unfold createSupplyOne
    rw [hm]
    dsimp only
    split
    · rename_i heq
      refine ⟨rfl, rfl, fun _ => rfl, ?_⟩
      intro ocId ho
      have heq2 : firstOc db oid = none := heq
      rw [heq2] at ho
      exact absurd ho (by simp)
    · rename_i ocId heq
      have heq2 : firstOc db oid = some ocId := heq
      refine ⟨rfl, rfl, ?_, ?_⟩
      · intro ho
        rw [heq2] at ho
        exact absurd ho (by simp)
      · intro ocId2 ho
        rw [heq2] at ho
        simp only [Option.some.injEq] at ho
        subst ho
        rfl

theorem claim_C7_supply_request_rows_witness :
    (createSupplyOne 9 "2026-01-01" storeC7 ("M", 5)).batches
      = storeC7.batches ++ [{ id := storeC7.nextBatchId, supplyId := storeC7.nextSupplyId,
                              materialId := 1, quantity := 5, width := none, height := none,
                              status := "Ждёт подтверждения", remainder := 0 }] :=
  ((claim_C7_supply_request_rows storeC7 9 "2026-01-01" "M" 5).2.2 1 (by decide)).2.1

theorem flatMap_eq_nil_of {α β : Type} {f : α → List β} :
    ∀ {l : List α}, (∀ x ∈ l, f x = []) → l.flatMap f = [] := by
  intro l
  induction l with
  | nil => intro _; rfl
  | cons a rest ih =>
    intro h
    rw [List.flatMap_cons, h a (List.mem_cons_self ..), List.nil_append]
    exact ih fun x hx => h x (List.mem_cons_of_mem _ hx)

theorem fabricRows_empty (db : DB) (oid : Nat)
    (hno : ∀ oc ∈ db.orderComps, oc.orderId ≠ oid) :
    fabricRows db oid = [] := by
  unfold fabricRows
  refine flatMap_eq_nil_of fun pm _ => ?_
  refine flatMap_eq_nil_of fun sc _ => ?_
  refine flatMap_eq_nil_of fun m _ => ?_
  have : (db.orderComps.filter fun oc => oc.id == pm.ocId && oc.orderId == oid) = [] := by
    refine List.filter_eq_nil_iff.mpr fun oc hoc => ?_
    simp [hno oc hoc]
  rw [this]
  rfl

theorem itemRows_empty (db : DB) (oid : Nat)
    (hno : ∀ oc ∈ db.orderComps, oc.orderId ≠ oid) :
    itemRows db oid = [] := by
  unfold itemRows
  have : (db.orderComps.filter fun oc => oc.orderId == oid) = [] := by
    refine List.filter_eq_nil_iff.mpr fun oc hoc => ?_
    simp [hno oc hoc]
  rw [this]
  rfl

theorem hardwareReqRows_empty (db : DB) (oid : Nat)
    (hno : ∀ oc ∈ db.orderComps, oc.orderId ≠ oid) :
    hardwareReqRows db oid = [] := by
  unfold hardwareReqRows
  have : (db.pms.filter fun pm =>
      db.orderComps.any fun oc => oc.id == pm.ocId && oc.orderId == oid) = [] := by
    refine List.filter_eq_nil_iff.mpr fun pm _ => ?_
    simp only [List.any_eq_true, not_exists]
    intro oc
    simp [hno oc]
    intro hmem _
    exact hno oc hmem
  rw [this]
  rfl

/-- Claim C6 counterexample: Order id 42 does not exist in `storeC6`, yet
the Material Demand Aggregator completes normally with empty demand and
shortage data — it does not fail with `LookupError` (and the source wraps
the whole computation in `try/except` blocks that turn any exception into
an error dialog instead of propagating it). -/
theorem claim_C6_counterexample :
    orderExists storeC6 42 = false
    ∧ calculateAggregate storeC6 42 = some ([], []) := by
  decide

/-- Claim C6, amended: For an order id with no order-composition rows in
the store, the aggregation does not fail: every demand query returns no
rows and the pass completes normally with empty fabric and hardware
shortage maps. -/
theorem claim_C6_missing_order_empty (db : DB) (oid : Nat)
    (hno : ∀ oc ∈ db.orderComps, oc.orderId ≠ oid) :
    calculateAggregate db oid = some ([], []) := by
  unfold calculateAggregate
  rw [fabricRows_empty db oid hno, itemRows_empty db oid hno]
  show some (fabricShortage db oid [], hardwareShortage db oid) = some ([], [])
  unfold hardwareShortage hardwareRequired
  rw [hardwareReqRows_empty db oid hno]
  rfl

theorem claim_C6_missing_order_empty_witness :
    calculateAggregate storeC6 43 = some ([], []) :=
  claim_C6_missing_order_empty storeC6 43 (by decide)

/-- Claim C4: Within a single pack call, for each orientation independently,
every piece type with positive remaining quantity is placed exactly
`min(floor(panelW / pieceW) x floor(panelH / pieceH), quantity)` times
(with the piece dimensions swapped in the rotated pass), where the
capacity is computed against the full panel — the formula mentions only
the panel and the piece itself, so the count does not depend on the other
piece types present or on how many of them were placed — and the
orientation with the strictly larger total covered area is the one
returned. -/
theorem claim_C4_independent_capacity (fw fh : Rat) (items : List Item)
    (hfw : 0 ≤ fw) (hfh : 0 ≤ fh)
    (hdims : ∀ it ∈ items, 0 < it.width ∧ 0 < it.height)
    (hnames : (items.map Item.name).Nodup)
    (it : Item) (hit : it ∈ items) (hq : 0 < it.quantity) :
    ∃ p0 u0 p1 u1,
      packPass fw fh false (sortItems (items.filter fun x => 0 < x.quantity)) = some (p0, u0)
      ∧ packPass fw fh true (sortItems (items.filter fun x => 0 < x.quantity)) = some (p1, u1)
      ∧ usedFor u0 it.name = min (capacityOf fw fh false it) it.quantity
      ∧ usedFor u1 it.name = min (capacityOf fw fh true it) it.quantity
      ∧ (totalArea p0 < totalArea p1 → pack_single_fabric fw fh items = some (p1, u1))
      ∧ (totalArea p1 < totalArea p0 → pack_single_fabric fw fh items = some (p0, u0)) := by
  have hmem : ∀ x : Item, x ∈ sortItems (items.filter fun y => 0 < y.quantity)
      ↔ x ∈ items ∧ 0 < x.quantity := by
    intro x
    rw [(sortItems_perm _).mem_iff, List.mem_filter]
    simp
  have hdl : ∀ x ∈ sortItems (items.filter fun y => 0 < y.quantity),
      0 < x.width ∧ 0 < x.height :=
    fun x hx => hdims x ((hmem x).mp hx).1
  have heff : ∀ rot : Bool, ∀ x ∈ sortItems (items.filter fun y => 0 < y.quantity),
      effWidth rot x ≠ 0 ∧ effHeight rot x ≠ 0 := by
    intro rot x hx
    have h := hdl x hx
    exact ⟨(effWidth_pos h.1 h.2).ne', (effHeight_pos h.1 h.2).ne'⟩
  obtain ⟨⟨p0, u0⟩, h0⟩ := @packPass_isSome fw fh false _ (heff false)
  obtain ⟨⟨p1, u1⟩, h1⟩ := @packPass_isSome fw fh true _ (heff true)
  have hnd : ((sortItems (items.filter fun y => 0 < y.quantity)).map Item.name).Nodup := by
    have hfil : ((items.filter fun y => 0 < y.quantity).map Item.name).Nodup :=
      hnames.sublist ((List.filter_sublist _).map Item.name)
    exact ((sortItems_perm _).map Item.name).symm.nodup hfil
  have hitl : it ∈ sortItems (items.filter fun y => 0 < y.quantity) :=
    (hmem it).mpr ⟨hit, hq⟩
  have hcapF : 0 ≤ capacityOf fw fh false it :=
    capacityOf_nonneg hfw hfh (hdims it hit).1 (hdims it hit).2
  have hcapT : 0 ≤ capacityOf fw fh true it :=
    capacityOf_nonneg hfw hfh (hdims it hit).1 (hdims it hit).2
  refine ⟨p0, u0, p1, u1, h0, h1, packPass_count h0 hnd it hitl hcapF hq,
    packPass_count h1 hnd it hitl hcapT hq, ?_, ?_⟩
  · intro hlt
    exact pack_select_second h0 h1 (packPass_totalArea_nonneg hdl h0) hlt
  · intro hlt
    refine pack_select_first h0 h1 ?_ hlt.le
    exact lt_of_le_of_lt (packPass_totalArea_nonneg hdl h1) hlt

theorem claim_C4_independent_capacity_witness :
    ∃ p0 u0,
      packPass 3 2 false (sortItems
        (([{ name := "a", width := 1, height := 1, quantity := 5 }] : List Item).filter
          fun x => 0 < x.quantity)) = some (p0, u0)
      ∧ usedFor u0 "a"
          = min (capacityOf 3 2 false { name := "a", width := 1, height := 1, quantity := 5 }) 5 := by
  obtain ⟨p0, u0, p1, u1, h0, h1, hc0, hc1, _, _⟩ :=
    claim_C4_independent_capacity 3 2
      [{ name := "a", width := 1, height := 1, quantity := 5 }]
      (by norm_num) (by norm_num)
      (by
        intro x hx
        rw [List.mem_singleton] at hx
        subst hx
        exact ⟨by norm_num, by norm_num⟩)
      (by simp)
      { name := "a", width := 1, height := 1, quantity := 5 }
      (by simp) (by norm_num)
  exact ⟨p0, u0, h0, hc0⟩

/-- Claim C8 counterexample: A piece list containing a zero-width piece with
positive quantity makes `fabric_width // item_width` raise
`ZeroDivisionError`: the packer does not return. -/
theorem claim_C8_counterexample :
    pack_single_fabric 1 1 [{ name := "z", width := 0, height := 1, quantity := 1 }]
      = none := by
  decide

/-- Claim C8, amended: Provided every piece with positive remaining
quantity has nonzero width and height (otherwise the integer division
raises `ZeroDivisionError`), the Panel Packer returns for all panel
dimensions and piece lists; the consumed-panel count of the driver loop
is a natural number and hence never negative; and every placement count
returned by a pack call is bounded by the remaining quantity of a piece
of that name that was positive at the time of the call. -/
theorem claim_C8_pack_safety (fw fh : Rat) (items : List Item)
    (hdims : ∀ it ∈ items, 0 < it.quantity → it.width ≠ 0 ∧ it.height ≠ 0) :
    (∃ r, pack_single_fabric fw fh items = some r)
    ∧ (∀ ps us, pack_single_fabric fw fh items = some (ps, us) →
        ∀ u ∈ us, ∃ it ∈ items, it.name = u.name ∧ 0 < it.quantity ∧ u.count ≤ it.quantity)
    ∧ (∀ n rest, cuttingLoop fw fh items = some (n, rest) → 0 ≤ (n : Int)) := by
  refine ⟨?_, ?_, ?_⟩
  · have heff : ∀ rot : Bool, ∀ x ∈ sortItems (items.filter fun y => 0 < y.quantity),
        effWidth rot x ≠ 0 ∧ effHeight rot x ≠ 0 := by
      intro rot x hx
      have hx2 := List.mem_filter.mp ((sortItems_perm _).mem_iff.mp hx)
      obtain ⟨h1, h2⟩ := hdims x hx2.1 (by simpa using hx2.2)
      cases rot
      · exact ⟨h1, h2⟩
      · exact ⟨h2, h1⟩
    obtain ⟨⟨p0, u0⟩, h0⟩ := @packPass_isSome fw fh false _ (heff false)
    obtain ⟨⟨p1, u1⟩, h1⟩ := @packPass_isSome fw fh true _ (heff true)
    unfold pack_single_fabric
    rw [h0, h1]
    simp only
    by_cases hA : (if 0 < totalArea p0 then totalArea p0 else 0) < totalArea p1
    · rw [if_pos hA]
      exact ⟨_, rfl⟩
    · rw [if_neg hA]
      by_cases hB : 0 < totalArea p0
      · rw [if_pos hB]
        exact ⟨_, rfl⟩
      · rw [if_neg hB]
        exact ⟨_, rfl⟩
  · intro ps us h u hu
    obtain ⟨hc, it, hmem, hq, hn, hle⟩ := pack_used_facts h u hu
    exact ⟨it, hmem, hn, hq, hle⟩
  · intro n rest _
    exact Int.natCast_nonneg n

theorem claim_C8_pack_safety_witness :
    ∃ r, pack_single_fabric 1 1 [{ name := "a", width := 1, height := 1, quantity := 1 }]
      = some r :=
  (claim_C8_pack_safety 1 1 [{ name := "a", width := 1, height := 1, quantity := 1 }]
    (by
      intro x hx _
      rw [List.mem_singleton] at hx
      subst hx
      exact ⟨by norm_num, by norm_num⟩)).1

/-- Claim C10: The per-material driver loop terminates: with non-negative
integer quantities, whenever a pack call over the positive-quantity items
returns a non-empty placement list, merging the used counts back strictly
decreases the total remaining quantity while keeping every quantity
non-negative; and whenever it returns an empty placement list, the loop
exits immediately with the tracker untouched. -/
theorem claim_C10_driver_terminates (fw fh : Rat) (items : List Item)
    (hq : ∀ it ∈ items, 0 ≤ it.quantity) :
    (∀ ps us,
      pack_single_fabric fw fh (items.filter fun it => 0 < it.quantity) = some (ps, us) →
      ps ≠ [] →
      totalPos (mergeUsed items us) < totalPos items
      ∧ ∀ it ∈ mergeUsed items us, 0 ≤ it.quantity)
    ∧ (∀ us,
      pack_single_fabric fw fh (items.filter fun it => 0 < it.quantity) = some ([], us) →
      cuttingLoop fw fh items = some (0, items)) := by
  constructor
  · intro ps us hp hne
    refine ⟨mergeUsed_totalPos_lt hp hne, ?_⟩
    have hrel := mergeUsed_rel us items fun v hv => le_of_lt (pack_used_facts hp v hv).1
    intro it hit
    obtain ⟨a, ha, hr⟩ := forall2_right_mem hrel it hit
    exact hr.2 (hq a ha)
  · intro us hp
    exact cuttingLoop_stop_empty hp

theorem claim_C10_driver_terminates_witness :
    cuttingLoop 1 1 ([] : List Item) = some (0, []) := by
  have h := claim_C10_driver_terminates 1 1 [] (by intro it hit; simp at hit)
  exact h.2 [] (by decide)

/-- Claim C9: The §8 scenario: on a 300x200 panel with demands
A (100x50, 10) and B (80x40, 5), a single pack call places 10 of A and 5
of B (unrotated capacities 12 and 15), the total covered area is 66000,
one panel is consumed, both piece types are fully satisfied and the
driver loop terminates with a required panel count of 1. -/
theorem claim_C9_scenario :
    pack_single_fabric 300 200 [pieceA, pieceB]
      = some ([{ width := 100, height := 50, count := 10, name := "A" },
               { width := 80, height := 40, count := 5, name := "B" }],
              [{ name := "A", count := 10 }, { name := "B", count := 5 }])
    ∧ totalArea [{ width := 100, height := 50, count := 10, name := "A" },
                 { width := 80, height := 40, count := 5, name := "B" }] = 66000
    ∧ cuttingLoop 300 200 [pieceA, pieceB]
      = some (1, [{ name := "A", width := 100, height := 50, quantity := 0 },
                  { name := "B", width := 80, height := 40, quantity := 0 }]) := by
  have hcapAF : capacityOf 300 200 false pieceA = 12 := by
    show Int.floor ((300 : ℚ) / 100) * Int.floor ((200 : ℚ) / 50) = 12
    norm_num
  have hcapBF : capacityOf 300 200 false pieceB = 15 := by
    show Int.floor ((300 : ℚ) / 80) * Int.floor ((200 : ℚ) / 40) = 15
    norm_num
  have hcapAT : capacityOf 300 200 true pieceA = 12 := by
    show Int.floor ((300 : ℚ) / 50) * Int.floor ((200 : ℚ) / 100) = 12
    norm_num
  have hcapBT : capacityOf 300 200 true pieceB = 14 := by
    show Int.floor ((300 : ℚ) / 40) * Int.floor ((200 : ℚ) / 80) = 14
    norm_num
  have hminAF : min (capacityOf 300 200 false pieceA) pieceA.quantity = 10 := by
    rw [hcapAF]; decide
  have hminBF : min (capacityOf 300 200 false pieceB) pieceB.quantity = 5 := by
    rw [hcapBF]; decide
  have hminAT : min (capacityOf 300 200 true pieceA) pieceA.quantity = 10 := by
    rw [hcapAT]; decide
  have hminBT : min (capacityOf 300 200 true pieceB) pieceB.quantity = 5 := by
    rw [hcapBT]; decide
  have hBF := @packPass_cons_pos 300 200 false pieceB [] [] [] (by decide) (by decide) rfl
    (by rw [hminBF]; decide)
  rw [hminBF] at hBF
  have hBF2 : packPass 300 200 false [pieceB]
      = some ([{ width := 80, height := 40, count := 5, name := "B" }],
              [{ name := "B", count := 5 }]) := by rw [hBF]; rfl
  have hAF := @packPass_cons_pos 300 200 false pieceA [pieceB]
    [{ width := 80, height := 40, count := 5, name := "B" }]
    [{ name := "B", count := 5 }] (by decide) (by decide) hBF2
    (by rw [hminAF]; decide)
  rw [hminAF] at hAF
  have hAF2 : packPass 300 200 false [pieceA, pieceB]
      = some ([{ width := 100, height := 50, count := 10, name := "A" },
               { width := 80, height := 40, count := 5, name := "B" }],
              [{ name := "A", count := 10 }, { name := "B", count := 5 }]) := by rw [hAF]; rfl
  have hBT := @packPass_cons_pos 300 200 true pieceB [] [] [] (by decide) (by decide) rfl
    (by rw [hminBT]; decide)
  rw [hminBT] at hBT
  have hBT2 : packPass 300 200 true [pieceB]
      = some ([{ width := 40, height := 80, count := 5, name := "B" }],
              [{ name := "B", count := 5 }]) := by rw [hBT]; rfl
  have hAT := @packPass_cons_pos 300 200 true pieceA [pieceB]
    [{ width := 40, height := 80, count := 5, name := "B" }]
    [{ name := "B", count := 5 }] (by decide) (by decide) hBT2
    (by rw [hminAT]; decide)
  rw [hminAT] at hAT
  have hAT2 : packPass 300 200 true [pieceA, pieceB]
      = some ([{ width := 50, height := 100, count := 10, name := "A" },
               { width := 40, height := 80, count := 5, name := "B" }],
              [{ name := "A", count := 10 }, { name := "B", count := 5 }]) := by rw [hAT]; rfl
  have hsort : sortItems ([pieceA, pieceB].filter fun it => 0 < it.quantity)
      = [pieceA, pieceB] := by decide
  have haF : totalArea [{ width := 100, height := 50, count := 10, name := "A" },
      { width := 80, height := 40, count := 5, name := "B" }] = 66000 := by
    show (100 : ℚ) * 50 * ((10 : Int) : ℚ) + ((80 : ℚ) * 40 * ((5 : Int) : ℚ) + 0) = 66000
    norm_num
  have haT : totalArea [{ width := 50, height := 100, count := 10, name := "A" },
      { width := 40, height := 80, count := 5, name := "B" }] = 66000 := by
    show (50 : ℚ) * 100 * ((10 : Int) : ℚ) + ((40 : ℚ) * 80 * ((5 : Int) : ℚ) + 0) = 66000
    norm_num
  have hpack : pack_single_fabric 300 200 [pieceA, pieceB]
      = some ([{ width := 100, height := 50, count := 10, name := "A" },
               { width := 80, height := 40, count := 5, name := "B" }],
              [{ name := "A", count := 10 }, { name := "B", count := 5 }]) := by
    unfold pack_single_fabric
    rw [hsort, hAF2, hAT2]
    simp only
    rw [haF, haT]
    rw [if_pos (show (0 : ℚ) < 66000 by norm_num)]
    rw [if_neg (lt_irrefl (66000 : ℚ))]
    rw [if_pos (show (0 : ℚ) < 66000 by norm_num)]
  refine ⟨hpack, haF, ?_⟩
  have hfilter : ([pieceA, pieceB].filter fun it => 0 < it.quantity) = [pieceA, pieceB] := by
    decide
  have hp2 : pack_single_fabric 300 200 ([pieceA, pieceB].filter fun it => 0 < it.quantity)
      = some ([{ width := 100, height := 50, count := 10, name := "A" },
               { width := 80, height := 40, count := 5, name := "B" }],
              [{ name := "A", count := 10 }, { name := "B", count := 5 }]) := by
    rw [hfilter]
    exact hpack
  have hmerge : mergeUsed [pieceA, pieceB]
      [{ name := "A", count := 10 }, { name := "B", count := 5 }]
      = [{ name := "A", width := 100, height := 50, quantity := 0 },
         { name := "B", width := 80, height := 40, quantity := 0 }] := by decide
  have hstop : cuttingLoop 300 200
      [{ name := "A", width := 100, height := 50, quantity := 0 },
       { name := "B", width := 80, height := 40, quantity := 0 }]
      = some (0, [{ name := "A", width := 100, height := 50, quantity := 0 },
                  { name := "B", width := 80, height := 40, quantity := 0 }]) :=
    cuttingLoop_stop_none (by decide)
  have hrec : cuttingLoop 300 200 (mergeUsed [pieceA, pieceB]
      [{ name := "A", count := 10 }, { name := "B", count := 5 }])
      = some (0, [{ name := "A", width := 100, height := 50, quantity := 0 },
                  { name := "B", width := 80, height := 40, quantity := 0 }]) := by
    rw [hmerge]
    exact hstop
  exact cuttingLoop_step hp2 (by decide) (by simp) hrec
